import Mathlib

/-!
# The lighttable thumbnail tile of darktable (`src/dtgtk/thumbnail.c`)

A shallow embedding of the drawing and event callbacks of the thumbnail
tile.  Every callback of the C file becomes a pure function from the tile
state (and the answers of the collaborators it consults) to the new tile
state and the list of calls it issues on cairo, pango, GLib, GTK and the
selection store, in program order.

Conventions of the embedding:

* C `int` fields are `Int`; the tile and bitmap dimensions are non-negative
  pixel counts, for which none of the subtractions below can overflow.
* A C `double` or `float` value is the rational number it denotes.  The
  geometry of the badge (font size and text positions) is computed as the
  C code computes it, in IEEE 754 arithmetic: every literal, product, sum
  and difference is rounded to the nearest `double` (53 bits, ties to
  even), each operation on its own, and an argument of `fminf` is narrowed
  to the nearest `float` (24 bits).  The exponent range is not bounded:
  overflow, subnormal numbers and NaN do not arise at pixel magnitudes.
  The conversion of an `int` to `double` is exact.  The two remaining
  floating expressions are written with the exact operations: the size of
  the tile rectangle, `width - 2.0 * delimiter`, which is over integers,
  and the requested bitmap size, `width * 0.91`, which is only used
  truncated to `int`.
* The conversion of a floating value to `int` truncates toward zero.
* C strings are lists of bytes (`Nat`); a `char` array is the list of its
  cells, the string it holds ends before the first zero cell.
-/

namespace Thumbnail

/-! ## Data model -/

/-- Colour slots of the GUI palette that the tile uses. -/
inductive dt_gui_color_t
  | DT_GUI_COLOR_LIGHTTABLE_BG
  | DT_GUI_COLOR_THUMBNAIL_BG
  | DT_GUI_COLOR_THUMBNAIL_FONT
  | DT_GUI_COLOR_THUMBNAIL_OUTLINE
  | DT_GUI_COLOR_THUMBNAIL_SELECTED_BG
  | DT_GUI_COLOR_THUMBNAIL_SELECTED_FONT
  | DT_GUI_COLOR_THUMBNAIL_SELECTED_OUTLINE
  | DT_GUI_COLOR_THUMBNAIL_HOVER_BG
  | DT_GUI_COLOR_THUMBNAIL_HOVER_FONT
  | DT_GUI_COLOR_THUMBNAIL_HOVER_OUTLINE
  deriving DecidableEq, Repr

open dt_gui_color_t

/-- A cairo image surface as the tile sees it: an identity and a pixel size
(`cairo_image_surface_get_width`, `cairo_image_surface_get_height`). -/
structure cairo_surface_t where
  handle : Nat
  width : Int
  height : Int
  deriving DecidableEq, Repr

/-- The part of a GTK widget that the callbacks change: its visibility and
the `GTK_STATE_FLAG_PRELIGHT` bit of its state flags. -/
structure GtkWidget where
  visible : Bool
  prelight : Bool
  deriving DecidableEq, Repr

/-- The tile (`dt_thumbnail`).  `w_back` records whether the drawing area
exists, that is whether `thumb->w_back` is a non-NULL GTK widget. -/
structure dt_thumbnail where
  imgid : Int
  width : Int
  height : Int
  img_surf : Option cairo_surface_t
  img_width : Int
  img_height : Int
  selected : Bool
  mouse_over : Bool
  thumb_border : Bool
  w_back : Bool
  w_info_back_eb : GtkWidget
  w_btn_reject : GtkWidget
  w_stars_box : GtkWidget
  deriving DecidableEq, Repr

/-- An image record of the image cache; `filename` is the `char` array of
the record, cell by cell. -/
structure dt_image_t where
  filename : List Nat
  deriving DecidableEq, Repr

/-- The ink rectangle that `pango_layout_get_pixel_extents` reports. -/
structure PangoRectangle where
  x : Int
  y : Int
  width : Int
  height : Int
  deriving DecidableEq, Repr

/-- Operations of the selection store (`common/selection.h`). -/
inductive SelectionOp
  | select_single (imgid : Int)
  | toggle (imgid : Int)
  | select_range (imgid : Int)
  deriving DecidableEq, Repr

/-- The calls a callback issues, in program order. -/
inductive Effect
  /-- call `dt_gui_gtk_set_source_rgb(cr, c)` -/
  | set_source_rgb (c : dt_gui_color_t)
  /-- call `cairo_paint(cr)` -/
  | paint
  /-- call `cairo_rectangle(cr, x, y, w, h)` -/
  | rectangle (x y w h : ℚ)
  /-- call `cairo_fill_preserve(cr)` -/
  | fill_preserve
  /-- call `cairo_set_line_width(cr, w)` -/
  | set_line_width (w : ℚ)
  /-- call `cairo_stroke(cr)` -/
  | stroke
  /-- the bold font description at absolute size `px * PANGO_SCALE` is set
  on a fresh layout -/
  | set_font_description (px : Int)
  /-- call `pango_layout_set_text(layout, text, len)` -/
  | layout_set_text (text : List Nat)
  /-- call `cairo_move_to(cr, x, y)` -/
  | move_to (x y : ℚ)
  /-- call `pango_cairo_show_layout(cr, layout)` -/
  | show_layout
  /-- call `cairo_set_source_surface(cr, s, x, y)` -/
  | set_source_surface (s : cairo_surface_t) (x y : Int)
  /-- call `dt_view_image_get_surface(imgid, width, height, &thumb->img_surf)` -/
  | image_get_surface (imgid width height : Int)
  /-- call `g_timeout_add(ms, _expose_again, widget)` -/
  | timeout_add (ms : Nat)
  /-- call `gtk_widget_queue_draw(widget)` -/
  | queue_draw
  /-- call `printf(text)` -/
  | printf (text : String)
  /-- a call on the selection store `darktable.selection` -/
  | selection (op : SelectionOp)
  deriving DecidableEq, Repr

/-- Whether a call puts ink on the target surface. -/
def Effect.is_drawing : Effect → Bool
  | .paint => true
  | .fill_preserve => true
  | .stroke => true
  | .show_layout => true
  | _ => false

/-- The collaborators a draw pass consults.  `DT_PIXEL_APPLY_DPI` is the
scaling of device-independent pixels of `gui/gtk.h`, `image_cache` is
`dt_image_cache_get(darktable.image_cache, imgid, 'r')`, and `ink size text`
is the ink rectangle of `text` laid out in the bold font at absolute size
`size`. -/
structure Env where
  DT_PIXEL_APPLY_DPI : ℚ → ℚ
  image_cache : Int → Option dt_image_t
  ink : Int → List Nat → PangoRectangle

/-- Conversion of a floating value to `int`: truncation toward zero. -/
def c_int (q : ℚ) : Int := Int.tdiv q.num q.den

/-- Rounding of a rational to the nearest integer, a tie going to the even
neighbour. -/
def round_half_even (x : ℚ) : Int :=
  let f : Int := ⌊x⌋
  if x - f < 1 / 2 then f
  else if 1 / 2 < x - f then f + 1
  else if f % 2 = 0 then f else f + 1

/-- IEEE 754 rounding to nearest, ties to even, to a significand of `p`
bits: `q` is scaled by the power of two that brings its magnitude into
`[2^(p-1), 2^p)`, rounded to an integer and scaled back. -/
def round_to (p : Nat) (q : ℚ) : ℚ :=
  if q = 0 then 0
  else
    let s : Int := Int.log 2 |q| - ((p : Int) - 1)
    (round_half_even (q / (2 : ℚ) ^ s) : ℚ) * (2 : ℚ) ^ s

/-- The nearest `double`. -/
def double_round (q : ℚ) : ℚ := round_to 53 q

/-- The nearest `float`: the narrowing of a `double` argument of `fminf`. -/
def float_round (q : ℚ) : ℚ := round_to 24 q

/-- The product of two `double` values. -/
def double_mul (a b : ℚ) : ℚ := double_round (a * b)

/-- The sum of two `double` values. -/
def double_add (a b : ℚ) : ℚ := double_round (a + b)

/-- The difference of two `double` values. -/
def double_sub (a b : ℚ) : ℚ := double_round (a - b)

/-! ## `_draw_background`: the colour triple -/

/-- Lines 62-76 of `_draw_background`: `(bgcol, fontcol, outlinecol)`. -/
def thumbnail_colours (thumb : dt_thumbnail) :
    dt_gui_color_t × dt_gui_color_t × dt_gui_color_t :=
  let c0 := (DT_GUI_COLOR_THUMBNAIL_BG, DT_GUI_COLOR_THUMBNAIL_FONT,
    DT_GUI_COLOR_THUMBNAIL_OUTLINE)
  let c1 :=
    if thumb.selected then
      (DT_GUI_COLOR_THUMBNAIL_SELECTED_BG, DT_GUI_COLOR_THUMBNAIL_SELECTED_FONT,
        DT_GUI_COLOR_THUMBNAIL_SELECTED_OUTLINE)
    else c0
  if thumb.mouse_over then
    (DT_GUI_COLOR_THUMBNAIL_HOVER_BG, DT_GUI_COLOR_THUMBNAIL_HOVER_FONT,
      DT_GUI_COLOR_THUMBNAIL_HOVER_OUTLINE)
  else c1

/-! ## `_draw_background`: the file-extension badge -/

/-- C `strlen`: the number of cells before the first zero cell. -/
def strlen (buf : List Nat) : Nat := (buf.takeWhile (· != 0)).length

/-- The C string that starts at cell `i` of `buf`. -/
def cstr_at (buf : List Nat) (i : Nat) : List Nat := (buf.drop i).takeWhile (· != 0)

/-- GLib `g_ascii_toupper`: `'a'..'z'` go to `'A'..'Z'`, every other byte is
kept. -/
def g_ascii_toupper (c : Nat) : Nat := if 97 ≤ c ∧ c ≤ 122 then c - 32 else c

/-- GLib `g_ascii_strup(s, -1)`. -/
def g_ascii_strup (s : List Nat) : List Nat := s.map g_ascii_toupper

/-- Line 95, `while(ext > img->filename && *ext != '.') ext--;`, with `ext`
held as an offset into `img->filename`: the offset at which the loop stops
when it is entered at offset `ext`. -/
def ext_scan (buf : List Nat) : Nat → Nat
  | 0 => 0
  | ext + 1 => if buf.getD (ext + 1) 0 ≠ 46 then ext_scan buf ext else ext + 1

/-- The offsets that the loop of line 95 reads, in the order it reads
them. -/
def ext_scan_reads (buf : List Nat) : Nat → List Nat
  | 0 => []
  | ext + 1 =>
    (ext + 1) :: (if buf.getD (ext + 1) 0 ≠ 46 then ext_scan_reads buf ext else [])

/-- Lines 94-96: the offset of `ext` after the scan and the `ext++`. -/
def ext_offset (img : dt_image_t) : Nat :=
  let ext := strlen img.filename
  let ext := ext_scan img.filename ext
  ext + 1

/-- Lines 94-97: the text of the badge, `upcase_ext`. -/
def upcase_ext (img : dt_image_t) : List Nat :=
  g_ascii_strup (cstr_at img.filename (ext_offset img))

/-- Line 104: `const int fontsize = fminf(DT_PIXEL_APPLY_DPI(20.0), .09 * thumb->width);`
Both arguments are `double` values that `fminf` takes as `float`; the
`float` result is truncated to `int`. -/
def fontsize (env : Env) (thumb : dt_thumbnail) : Int :=
  c_int (min (float_round (env.DT_PIXEL_APPLY_DPI 20.0))
    (float_round (double_mul (double_round 0.09) (thumb.width : ℚ))))

/-- Lines 113-119: the loop that measures the widest character.  Entered
with `max_chr_width = m` at the characters `e`, it returns the final
`max_chr_width` and the calls made. -/
def measure_loop (env : Env) (fontsize : Int) : List Nat → Int → Int × List Effect
  | [], m => (m, [])
  | c :: rest, m =>
    let ink := env.ink fontsize [c]
    let r := measure_loop env fontsize rest (max m ink.width)
    (r.1, Effect.layout_set_text [c] :: r.2)

/-- Lines 121-128: the loop that shows the characters one below the other,
entered at the characters `e` with the loop variable `yoffs`. -/
def vertical_loop (env : Env) (thumb : dt_thumbnail) (fontsize max_chr_width : Int) :
    List Nat → Int → List Effect
  | [], _ => []
  | c :: rest, yoffs =>
    let ink := env.ink fontsize [c]
    [Effect.layout_set_text [c],
     Effect.move_to
       (double_add (double_sub (double_mul (double_round 0.045) (thumb.width : ℚ)) (ink.x : ℚ))
          ((Int.tdiv (max_chr_width - ink.width) 2 : Int) : ℚ))
       (double_add (double_sub (double_mul (double_round 0.045) (thumb.height : ℚ)) (yoffs : ℚ))
          (fontsize : ℚ)),
     Effect.show_layout]
    ++ vertical_loop env thumb fontsize max_chr_width rest (yoffs - fontsize)

/-- Lines 94-139: the badge of a resolved image record. -/
def draw_badge (env : Env) (thumb : dt_thumbnail) (img : dt_image_t)
    (fontcol : dt_gui_color_t) : List Effect :=
  let upcase := upcase_ext img
  let fontsize := fontsize env thumb
  [Effect.set_font_description fontsize, Effect.set_source_rgb fontcol] ++
  (if thumb.img_height > thumb.img_width then
    let m := measure_loop env fontsize upcase 0
    m.2 ++ vertical_loop env thumb fontsize m.1 upcase fontsize
  else
    let ink := env.ink fontsize upcase
    [Effect.layout_set_text upcase,
     Effect.move_to
       (double_sub (double_mul (double_round 0.045) (thumb.width : ℚ)) (ink.x : ℚ))
       (double_mul (double_round 0.045) (thumb.height : ℚ)),
     Effect.show_layout])

/-- The function `_draw_background`. -/
def _draw_background (env : Env) (thumb : dt_thumbnail) : List Effect :=
  let delimiter : Int := c_int (env.DT_PIXEL_APPLY_DPI 1.0)
  let cols := thumbnail_colours thumb
  [Effect.set_source_rgb DT_GUI_COLOR_LIGHTTABLE_BG, Effect.paint,
   Effect.rectangle delimiter delimiter
     ((thumb.width : ℚ) - 2.0 * (delimiter : ℚ)) ((thumb.height : ℚ) - 2.0 * (delimiter : ℚ)),
   Effect.set_source_rgb cols.1, Effect.fill_preserve] ++
  (if thumb.thumb_border then
    [Effect.set_line_width (env.DT_PIXEL_APPLY_DPI 2.0), Effect.set_source_rgb cols.2.2,
     Effect.stroke]
  else []) ++
  (match env.image_cache thumb.imgid with
   | some img => draw_badge env thumb img cols.2.1
   | none => [])

/-! ## `_draw_image` and the draw handler -/

/-- The function `_draw_image`. -/
def _draw_image (thumb : dt_thumbnail) : List Effect :=
  match thumb.img_surf with
  | none => []
  | some surf =>
    [Effect.set_source_surface surf (Int.tdiv (thumb.width - thumb.img_width) 2)
       (Int.tdiv (thumb.height - thumb.img_height) 2),
     Effect.paint]

/-- The function `_draw_image_border`, whose body is empty. -/
def _draw_image_border (_thumb : dt_thumbnail) : List Effect := []

/-- Modelled from the spec: the outcome of the surface cache adapter
`dt_view_image_get_surface` (`views/view.c`), per section 4.1 a
`Result<Bitmap, Pending>`.  `Pending` is a non-zero return, which leaves
`thumb->img_surf` unset; `Bitmap s` is a zero return, which stores `s` in
`thumb->img_surf`. -/
inductive SurfaceAnswer
  | Pending
  | Bitmap (s : cairo_surface_t)
  deriving DecidableEq, Repr

/-- The draw handler `_back_draw_callback`.  `user_data` is the tile, `none`
for a NULL pointer; `ans` is what the adapter answers if it is called.  The
result is the tile afterwards and the calls made. -/
def _back_draw_callback (env : Env) (ans : SurfaceAnswer) :
    Option dt_thumbnail → Option dt_thumbnail × List Effect
  | none => (none, [])
  | some thumb =>
    if thumb.imgid ≤ 0 then
      (some thumb, [Effect.set_source_rgb DT_GUI_COLOR_LIGHTTABLE_BG, Effect.paint])
    else
      match thumb.img_surf with
      | none =>
        let call := Effect.image_get_surface thumb.imgid
          (c_int ((thumb.width : ℚ) * 0.91)) (c_int ((thumb.height : ℚ) * 0.91))
        match ans with
        | SurfaceAnswer.Pending => (some thumb, [call, Effect.timeout_add 250])
        | SurfaceAnswer.Bitmap s =>
          let thumb := { thumb with img_surf := some s, img_width := s.width,
                                    img_height := s.height }
          (some thumb,
            [call] ++ _draw_background env thumb ++ _draw_image thumb ++ _draw_image_border thumb)
      | some _ =>
        (some thumb, _draw_background env thumb ++ _draw_image thumb ++ _draw_image_border thumb)

/-- The timer callback `_expose_again`.  `user_data` tells whether the
pointer is a live GTK widget.  The result is the return value (`false`:
the timer source is removed) and the calls made. -/
def _expose_again (user_data : Bool) : Bool × List Effect :=
  if !user_data then (false, [])
  else (false, [Effect.queue_draw])

/-! ## Event callbacks -/

/-- The function `_set_over_flag`, on the `GTK_STATE_FLAG_PRELIGHT` bit. -/
def _set_over_flag (w : GtkWidget) (over : Bool) : GtkWidget :=
  if over then { w with prelight := true } else { w with prelight := false }

/-- GTK `gtk_widget_set_visible`. -/
def gtk_widget_set_visible (w : GtkWidget) (visible : Bool) : GtkWidget :=
  { w with visible := visible }

/-- The handler `_dt_mouse_over_image_callback` of the mouse-over broadcast.
`over_id` is the answer of `dt_control_get_mouse_over_id()`; `user_data` is
the tile, `none` for a NULL pointer. -/
def _dt_mouse_over_image_callback (over_id : Int) :
    Option dt_thumbnail → Option dt_thumbnail × List Effect
  | none => (none, [])
  | some thumb =>
    if !thumb.w_back then (some thumb, [])
    else if thumb.mouse_over || over_id == thumb.imgid then
      let thumb := { thumb with mouse_over := (over_id == thumb.imgid) }
      let thumb := { thumb with
        w_info_back_eb := gtk_widget_set_visible thumb.w_info_back_eb thumb.mouse_over }
      let thumb := { thumb with
        w_btn_reject := gtk_widget_set_visible thumb.w_btn_reject thumb.mouse_over }
      let thumb := { thumb with
        w_stars_box := gtk_widget_set_visible thumb.w_stars_box thumb.mouse_over }
      let thumb :=
        if !thumb.mouse_over then
          { thumb with w_info_back_eb := _set_over_flag thumb.w_info_back_eb false }
        else thumb
      (some thumb, [Effect.queue_draw])
    else (some thumb, [])

/-- The handler `_dt_selection_changed_callback` of the selection-changed
broadcast.  `is_selected_row` tells whether the prepared statement
`is_selected`, bound to `thumb->imgid`, steps to a row; `user_data` is the
tile, `none` for a NULL pointer. -/
def _dt_selection_changed_callback (is_selected_row : Bool) :
    Option dt_thumbnail → Option dt_thumbnail × List Effect
  | none => (none, [])
  | some thumb =>
    let selected := if is_selected_row then true else false
    if selected != thumb.selected then
      (some { thumb with selected := selected }, [Effect.queue_draw])
    else (some thumb, [])

/-- The fields of `GdkEventButton` that the release handler reads. -/
structure GdkEventButton where
  button : Nat
  state : Nat
  deriving DecidableEq, Repr

/-- GDK modifier bit `GDK_SHIFT_MASK = 1 << 0`. -/
def GDK_SHIFT_MASK : Nat := 1 <<< 0

/-- GDK modifier bit `GDK_CONTROL_MASK = 1 << 2`. -/
def GDK_CONTROL_MASK : Nat := 1 <<< 2

/-- The handler `_back_release_callback`. -/
def _back_release_callback (event : GdkEventButton) (thumb : dt_thumbnail) : List Effect :=
  if event.button = 1 then
    [Effect.printf "yop\n"] ++
    (if event.state &&& (GDK_SHIFT_MASK ||| GDK_CONTROL_MASK) = 0 then
      [Effect.selection (SelectionOp.select_single thumb.imgid)]
    else if event.state &&& GDK_CONTROL_MASK = GDK_CONTROL_MASK then
      [Effect.selection (SelectionOp.toggle thumb.imgid)]
    else if event.state &&& GDK_SHIFT_MASK = GDK_SHIFT_MASK then
      [Effect.selection (SelectionOp.select_range thumb.imgid)]
    else [])
  else []

/-- The calls on the selection store among a list of calls. -/
def store_ops (es : List Effect) : List SelectionOp :=
  es.filterMap (fun e => match e with
    | Effect.selection op => some op
    | _ => none)

/-- Modelled from the spec: the selection store (`common/selection.c`) as a
finite set of image ids.  `select_single(id)` replaces the selection with
exactly `id`, `toggle(id)` flips the membership of `id`, and
`select_range(id)` is the range extension `range` of the store. -/
def SelectionOp.apply (range : Finset Int → Int → Finset Int) :
    SelectionOp → Finset Int → Finset Int
  | SelectionOp.select_single imgid, _ => {imgid}
  | SelectionOp.toggle imgid, sel => if imgid ∈ sel then sel.erase imgid else insert imgid sel
  | SelectionOp.select_range imgid, sel => range sel imgid

/-- The selection after a list of store operations. -/
def run_store (range : Finset Int → Int → Finset Int) (ops : List SelectionOp)
    (sel : Finset Int) : Finset Int :=
  ops.foldl (fun s op => op.apply range s) sel

/-- One mouse-over broadcast: every subscribed tile handles it with the
same `over_id`. -/
def mouse_over_broadcast (over_id : Int) (tiles : List dt_thumbnail) :
    List (Option dt_thumbnail) :=
  tiles.map (fun t => (_dt_mouse_over_image_callback over_id (some t)).1)

/-! ## The deferred redraw as a state machine -/

/-- The number of `g_timeout_add` calls among a list of calls. -/
def timeouts_added (es : List Effect) : Nat :=
  (es.filter (fun e => match e with
    | Effect.timeout_add _ => true
    | _ => false)).length

/-- A tile on the GLib main loop: the tile and the number of timer sources
for `_expose_again` that are scheduled and have not fired. -/
structure MainLoop where
  thumb : dt_thumbnail
  timers : Nat
  deriving DecidableEq, Repr

/-- A step of the main loop: a draw pass in which the adapter would answer
`ans`, or the firing of one scheduled timer. -/
inductive LoopEvent
  | draw (ans : SurfaceAnswer)
  | timer_fires
  deriving DecidableEq, Repr

/-- One step.  A draw pass runs `_back_draw_callback` and schedules a timer
per `g_timeout_add` call made.  A firing, possible when a timer is
scheduled, runs `_expose_again` on the live drawing area; the source is
kept only if the callback returns `true`. -/
def MainLoop.step (env : Env) (st : MainLoop) : LoopEvent → MainLoop
  | LoopEvent.draw ans =>
    let r := _back_draw_callback env ans (some st.thumb)
    { thumb := r.1.getD st.thumb, timers := st.timers + timeouts_added r.2 }
  | LoopEvent.timer_fires =>
    if st.timers = 0 then st
    else
      let r := _expose_again true
      { st with timers := st.timers - 1 + (if r.1 then 1 else 0) }

/-- A run of the main loop. -/
def MainLoop.run (env : Env) (st : MainLoop) (evs : List LoopEvent) : MainLoop :=
  evs.foldl (MainLoop.step env) st

/-- The number of draw passes of a run. -/
def draw_passes (evs : List LoopEvent) : Nat :=
  (evs.filter (fun e => match e with
    | LoopEvent.draw _ => true
    | LoopEvent.timer_fires => false)).length

/-- Whether, in the run `evs` from `st`, every draw pass starts when no
timer is scheduled. -/
def MainLoop.draws_when_idle (env : Env) : MainLoop → List LoopEvent → Bool
  | _, [] => true
  | st, LoopEvent.draw ans :: evs =>
    st.timers == 0 && MainLoop.draws_when_idle env (st.step env (LoopEvent.draw ans)) evs
  | st, LoopEvent.timer_fires :: evs =>
    MainLoop.draws_when_idle env (st.step env LoopEvent.timer_fires) evs

/-! ## Observers of a list of calls -/

/-- A layout shown on the surface: its text and the point it is shown at. -/
structure Shown where
  text : List Nat
  x : ℚ
  y : ℚ
  deriving DecidableEq, Repr

/-- The layouts that a list of calls shows, given the text `t` of the layout
and the current point `p` before the calls: `pango_cairo_show_layout` shows
the text last set at the point last moved to. -/
def shown_layouts : List Nat → ℚ × ℚ → List Effect → List Shown
  | _, _, [] => []
  | t, p, e :: es =>
    match e with
    | Effect.layout_set_text t2 => shown_layouts t2 p es
    | Effect.move_to x y => shown_layouts t (x, y) es
    | Effect.show_layout => { text := t, x := p.1, y := p.2 } :: shown_layouts t p es
    | _ => shown_layouts t p es

/-- Whether a call is `cairo_set_source_surface`. -/
def Effect.is_set_source_surface : Effect → Bool
  | Effect.set_source_surface _ _ _ => true
  | _ => false

/-- Whether a call is `dt_view_image_get_surface`. -/
def Effect.is_image_get_surface : Effect → Bool
  | Effect.image_get_surface _ _ _ => true
  | _ => false

/-- Whether a call is `gtk_widget_queue_draw`. -/
def Effect.is_queue_draw : Effect → Bool
  | Effect.queue_draw => true
  | _ => false

/-- The bytes of an ASCII string literal. -/
def ascii (s : String) : List Nat := s.data.map Char.toNat

/-- The colours that a list of calls selects with `dt_gui_gtk_set_source_rgb`,
in order. -/
def source_colours (es : List Effect) : List dt_gui_color_t :=
  es.filterMap (fun e => match e with
    | Effect.set_source_rgb c => some c
    | _ => none)

/-- Whether a call is one of those that `_draw_background` makes: a cairo
path, source-colour or ink call, or a pango layout call. -/
def Effect.is_background_call : Effect → Bool
  | Effect.set_source_rgb _ => true
  | Effect.paint => true
  | Effect.rectangle _ _ _ _ => true
  | Effect.fill_preserve => true
  | Effect.set_line_width _ => true
  | Effect.stroke => true
  | Effect.set_font_description _ => true
  | Effect.layout_set_text _ => true
  | Effect.move_to _ _ => true
  | Effect.show_layout => true
  | _ => false

/-- Sample collaborators: a dpi factor of one, every image id resolves to
the record of `img_0001.jpg`, and the ink of a text is one font size wide
per byte. -/
def sample_env : Env where
  DT_PIXEL_APPLY_DPI := fun v => v
  image_cache := fun _ => some { filename := ascii "img_0001.jpg" ++ [0] }
  ink := fun size text => { x := 0, y := 0, width := size * text.length, height := size }

/-- A sample populated tile of 200 by 200 pixels that holds no bitmap. -/
def sample_tile : dt_thumbnail where
  imgid := 7
  width := 200
  height := 200
  img_surf := none
  img_width := 0
  img_height := 0
  selected := false
  mouse_over := false
  thumb_border := true
  w_back := true
  w_info_back_eb := { visible := false, prelight := false }
  w_btn_reject := { visible := false, prelight := false }
  w_stars_box := { visible := false, prelight := false }

/-- A sample empty tile: no image is assigned to the cell. -/
def empty_tile : dt_thumbnail := { sample_tile with imgid := 0, w_back := false }

/-- A sample portrait bitmap of 121 by 182 pixels. -/
def sample_surface : cairo_surface_t := { handle := 1, width := 121, height := 182 }

/-- The tiles of a list that are marked as hovered. -/
def hovered (tiles : List (Option dt_thumbnail)) : List (Option dt_thumbnail) :=
  tiles.filter (fun t => match t with
    | some t => t.mouse_over
    | none => false)

/-- A second sample tile, for image 3, that is marked as hovered. -/
def hovered_tile : dt_thumbnail :=
  { sample_tile with
    imgid := 3, mouse_over := true,
    w_info_back_eb := { visible := true, prelight := true },
    w_btn_reject := { visible := true, prelight := false },
    w_stars_box := { visible := true, prelight := false } }

/-- A sample tile of 8 by 8 pixels that holds a portrait bitmap of 4 by 7
pixels. -/
def tiny_tile : dt_thumbnail :=
  { sample_tile with
    width := 8, height := 8,
    img_surf := some { handle := 2, width := 4, height := 7 },
    img_width := 4, img_height := 7 }

/-- A sample tile of 128 by 128 pixels that holds a portrait bitmap of 77 by
116 pixels. -/
def square_tile : dt_thumbnail :=
  { sample_tile with
    width := 128, height := 128,
    img_surf := some { handle := 3, width := 77, height := 116 },
    img_width := 77, img_height := 116 }

/-- The sample tile once it holds the sample portrait bitmap. -/
def portrait_tile : dt_thumbnail :=
  { sample_tile with
    img_surf := some sample_surface,
    img_width := sample_surface.width, img_height := sample_surface.height }

/-! ## Theorems -/

/-- The measuring loop selects no colour. -/
theorem measure_loop_source_colours (env : Env) (fs : Int) (e : List Nat) (m : Int) :
    source_colours (measure_loop env fs e m).2 = [] := by
  induction e generalizing m with
  | nil => rfl
  | cons c rest ih => simp [measure_loop, source_colours] at ih ⊢; exact ih _

/-- The vertical badge loop selects no colour. -/
theorem vertical_loop_source_colours (env : Env) (thumb : dt_thumbnail) (fs mw : Int)
    (e : List Nat) (yoffs : Int) :
    source_colours (vertical_loop env thumb fs mw e yoffs) = [] := by
  induction e generalizing yoffs with
  | nil => rfl
  | cons c rest ih => simp [vertical_loop, source_colours] at ih ⊢; exact ih _

/-- C1: the colour triple of `_draw_background` follows the priority
mouse_over > selected > default: the HOVER triple when `mouse_over` is set,
otherwise the SELECTED triple when `selected` is set, otherwise the default
THUMBNAIL triple.  The three colours come from one triple, two tiles that
agree on `(selected, mouse_over)` get the same triple, and the colours that
`_draw_background` selects are the filler and then the members of that
triple: the background, the outline if the border is stroked, the font if
the image record resolves. -/
theorem thumbnail_colours_priority (env : Env) (thumb : dt_thumbnail) :
    thumbnail_colours thumb =
      (if thumb.mouse_over then
        (DT_GUI_COLOR_THUMBNAIL_HOVER_BG, DT_GUI_COLOR_THUMBNAIL_HOVER_FONT,
          DT_GUI_COLOR_THUMBNAIL_HOVER_OUTLINE)
      else if thumb.selected then
        (DT_GUI_COLOR_THUMBNAIL_SELECTED_BG, DT_GUI_COLOR_THUMBNAIL_SELECTED_FONT,
          DT_GUI_COLOR_THUMBNAIL_SELECTED_OUTLINE)
      else
        (DT_GUI_COLOR_THUMBNAIL_BG, DT_GUI_COLOR_THUMBNAIL_FONT,
          DT_GUI_COLOR_THUMBNAIL_OUTLINE))
    ∧ (∀ other : dt_thumbnail, other.selected = thumb.selected →
        other.mouse_over = thumb.mouse_over →
        thumbnail_colours other = thumbnail_colours thumb)
    ∧ source_colours (_draw_background env thumb) =
        [DT_GUI_COLOR_LIGHTTABLE_BG, (thumbnail_colours thumb).1]
        ++ (if thumb.thumb_border then [(thumbnail_colours thumb).2.2] else [])
        ++ (if (env.image_cache thumb.imgid).isSome then [(thumbnail_colours thumb).2.1]
            else []) := by
  refine ⟨?_, ?_, ?_⟩
  · unfold thumbnail_colours
    cases thumb.mouse_over <;> cases thumb.selected <;> rfl
  · intro other hs hm
    unfold thumbnail_colours
    rw [hs, hm]
  · have hsplit : ∀ a b : List Effect,
        source_colours (a ++ b) = source_colours a ++ source_colours b := by
      intro a b; simp [source_colours]
    unfold _draw_background
    simp only [hsplit]
    congr 1
    · congr 1
      cases thumb.thumb_border <;> simp [source_colours]
    · cases hc : env.image_cache thumb.imgid with
      | none => simp [source_colours]
      | some img =>
        simp only [draw_badge, hsplit, Option.isSome_some, if_true]
        split_ifs
        · rw [hsplit, measure_loop_source_colours, vertical_loop_source_colours]
          simp [source_colours]
        · simp [source_colours]

/-- The measuring loop makes background calls only. -/
theorem measure_loop_background_calls (env : Env) (fs : Int) (e : List Nat) (m : Int) :
    ∀ c ∈ (measure_loop env fs e m).2, c.is_background_call = true := by
  induction e generalizing m with
  | nil => simp [measure_loop]
  | cons c rest ih =>
    intro x hx
    simp only [measure_loop, List.mem_cons] at hx
    rcases hx with rfl | hx
    · rfl
    · exact ih _ x hx

/-- The vertical badge loop makes background calls only. -/
theorem vertical_loop_background_calls (env : Env) (thumb : dt_thumbnail) (fs mw : Int)
    (e : List Nat) (yoffs : Int) :
    ∀ c ∈ vertical_loop env thumb fs mw e yoffs, c.is_background_call = true := by
  induction e generalizing yoffs with
  | nil => simp [vertical_loop]
  | cons c rest ih =>
    intro x hx
    simp only [vertical_loop, List.mem_append, List.mem_cons, List.mem_nil_iff,
      or_false] at hx
    rcases hx with (rfl | rfl | rfl) | hx
    · rfl
    · rfl
    · rfl
    · exact ih _ x hx

/-- The function `_draw_background` makes background calls only. -/
theorem draw_background_calls (env : Env) (thumb : dt_thumbnail) :
    ∀ c ∈ _draw_background env thumb, c.is_background_call = true := by
  intro x hx
  simp only [_draw_background, List.mem_append, List.mem_cons, List.mem_nil_iff,
    or_false] at hx
  rcases hx with ((rfl | rfl | rfl | rfl | rfl) | hx) | hx
  · rfl
  · rfl
  · rfl
  · rfl
  · rfl
  · split_ifs at hx
    · simp only [List.mem_cons, List.mem_nil_iff, or_false] at hx
      rcases hx with rfl | rfl | rfl <;> rfl
    · simp at hx
  · cases hc : env.image_cache thumb.imgid with
    | none => rw [hc] at hx; simp at hx
    | some img =>
      rw [hc] at hx
      simp only [draw_badge, List.mem_append, List.mem_cons, List.mem_nil_iff,
        or_false] at hx
      rcases hx with (rfl | rfl) | hx
      · rfl
      · rfl
      · split_ifs at hx
        · simp only [List.mem_append] at hx
          rcases hx with hx | hx
          · exact measure_loop_background_calls _ _ _ _ x hx
          · exact vertical_loop_background_calls _ _ _ _ _ _ x hx
        · simp only [List.mem_cons, List.mem_nil_iff, or_false] at hx
          rcases hx with rfl | rfl | rfl <;> rfl

/-- A predicate that fails on every background call selects nothing from the
calls of `_draw_background`. -/
theorem draw_background_filter (env : Env) (thumb : dt_thumbnail) (p : Effect → Bool)
    (hp : ∀ c : Effect, c.is_background_call = true → p c = false) :
    (_draw_background env thumb).filter p = [] := by
  rw [List.filter_eq_nil_iff]
  intro c hc
  simp [hp c (draw_background_calls env thumb c hc)]

/-- C2: for a tile with `imgid <= 0` the draw handler makes exactly the two
calls that paint the whole surface with the filler colour of the
lighttable, whatever the other fields of the tile and the answer the
adapter would give: the only drawing operation is that one paint, the
adapter is not called, no timer is scheduled, no bitmap is painted, no
layout is shown, and the tile is returned unchanged. -/
theorem back_draw_empty_tile (env : Env) (ans : SurfaceAnswer) (thumb : dt_thumbnail)
    (hid : thumb.imgid ≤ 0) :
    _back_draw_callback env ans (some thumb)
        = (some thumb, [Effect.set_source_rgb DT_GUI_COLOR_LIGHTTABLE_BG, Effect.paint])
    ∧ (_back_draw_callback env ans (some thumb)).2.filter Effect.is_drawing = [Effect.paint]
    ∧ (_back_draw_callback env ans (some thumb)).2.filter Effect.is_image_get_surface = []
    ∧ timeouts_added (_back_draw_callback env ans (some thumb)).2 = 0
    ∧ (_back_draw_callback env ans (some thumb)).2.filter Effect.is_set_source_surface = []
    ∧ shown_layouts [] (0, 0) (_back_draw_callback env ans (some thumb)).2 = [] := by
  have h : _back_draw_callback env ans (some thumb)
      = (some thumb, [Effect.set_source_rgb DT_GUI_COLOR_LIGHTTABLE_BG, Effect.paint]) := by
    simp [_back_draw_callback, hid]
  rw [h]
  exact ⟨rfl, rfl, rfl, rfl, rfl, rfl⟩

/-- Witness of C2 on the sample empty tile. -/
theorem back_draw_empty_tile_witness :
    empty_tile.imgid ≤ 0
    ∧ _back_draw_callback sample_env (SurfaceAnswer.Bitmap sample_surface) (some empty_tile)
        = (some empty_tile, [Effect.set_source_rgb DT_GUI_COLOR_LIGHTTABLE_BG, Effect.paint]) :=
  ⟨by decide,
   (back_draw_empty_tile sample_env (SurfaceAnswer.Bitmap sample_surface) empty_tile
      (by decide)).1⟩

/-- C3: on a populated tile that holds no bitmap, a draw pass in which the
adapter answers Pending makes exactly two calls, the adapter call and one
`g_timeout_add` of 250 ms.  It makes no drawing call and shows no layout,
and returns the tile unchanged, so the bitmap stays absent and `selected`,
`mouse_over` and the recorded bitmap size keep their values; the first call
of the next draw pass is again the adapter call. -/
theorem back_draw_pending (env : Env) (thumb : dt_thumbnail)
    (hid : 0 < thumb.imgid) (hs : thumb.img_surf = none) :
    _back_draw_callback env SurfaceAnswer.Pending (some thumb)
        = (some thumb,
            [Effect.image_get_surface thumb.imgid (c_int ((thumb.width : ℚ) * 0.91))
               (c_int ((thumb.height : ℚ) * 0.91)),
             Effect.timeout_add 250])
    ∧ timeouts_added (_back_draw_callback env SurfaceAnswer.Pending (some thumb)).2 = 1
    ∧ (_back_draw_callback env SurfaceAnswer.Pending (some thumb)).2.filter Effect.is_drawing = []
    ∧ shown_layouts [] (0, 0) (_back_draw_callback env SurfaceAnswer.Pending (some thumb)).2 = []
    ∧ ∀ next : SurfaceAnswer,
        (_back_draw_callback env next
            (_back_draw_callback env SurfaceAnswer.Pending (some thumb)).1).2.head?
          = some (Effect.image_get_surface thumb.imgid (c_int ((thumb.width : ℚ) * 0.91))
              (c_int ((thumb.height : ℚ) * 0.91))) := by
  have hid2 : ¬ thumb.imgid ≤ 0 := not_le.mpr hid
  have h : _back_draw_callback env SurfaceAnswer.Pending (some thumb)
      = (some thumb,
          [Effect.image_get_surface thumb.imgid (c_int ((thumb.width : ℚ) * 0.91))
             (c_int ((thumb.height : ℚ) * 0.91)),
           Effect.timeout_add 250]) := by
    simp [_back_draw_callback, hid2, hs]
  rw [h]
  refine ⟨rfl, rfl, rfl, rfl, ?_⟩
  intro next
  cases next <;> simp [_back_draw_callback, hid2, hs]

/-- Witness of C3 on the sample tile. -/
theorem back_draw_pending_witness :
    0 < sample_tile.imgid ∧ sample_tile.img_surf = none
    ∧ timeouts_added (_back_draw_callback sample_env SurfaceAnswer.Pending (some sample_tile)).2 = 1 :=
  ⟨by decide, rfl, (back_draw_pending sample_env sample_tile (by decide) rfl).2.1⟩

/-- The function `_draw_background` never selects a bitmap as source. -/
theorem draw_background_no_surface (env : Env) (t : dt_thumbnail) :
    (_draw_background env t).filter Effect.is_set_source_surface = [] :=
  draw_background_filter env t _
    (by intro c hc; cases c <;> first | rfl | exact Bool.noConfusion hc)

/-- The function `_draw_background` never calls the adapter. -/
theorem draw_background_no_adapter (env : Env) (t : dt_thumbnail) :
    (_draw_background env t).filter Effect.is_image_get_surface = [] :=
  draw_background_filter env t _
    (by intro c hc; cases c <;> first | rfl | exact Bool.noConfusion hc)

/-- The function `_draw_background` never schedules a timer. -/
theorem draw_background_no_timeout (env : Env) (t : dt_thumbnail) :
    timeouts_added (_draw_background env t) = 0 := by
  unfold timeouts_added
  rw [draw_background_filter env t _
    (by intro c hc; cases c <;> first | rfl | exact Bool.noConfusion hc)]
  rfl

/-- C4: on a populated tile, a draw pass that ends up holding the bitmap `s`
(held before the pass, or absent and fetched by the adapter in this pass,
in which case the recorded bitmap size becomes the size of `s` and nothing
else of the tile changes) makes the calls of `_draw_background` on the tile
as it is after the fetch and then, last, selects `s` as source with its
top-left corner at `((width - img_width) / 2, (height - img_height) / 2)`,
both divisions truncating, and paints.  The bitmap is selected exactly
once and no timer is scheduled; when the bitmap was already held the
adapter is not called and the tile is unchanged. -/
theorem back_draw_paints_bitmap (env : Env) (ans : SurfaceAnswer) (thumb : dt_thumbnail)
    (s : cairo_surface_t) (hid : 0 < thumb.imgid)
    (hs : thumb.img_surf = some s ∨ (thumb.img_surf = none ∧ ans = SurfaceAnswer.Bitmap s)) :
    ∃ after : dt_thumbnail,
      (_back_draw_callback env ans (some thumb)).1 = some after
      ∧ after = (if thumb.img_surf = none then
                  { thumb with img_surf := some s, img_width := s.width, img_height := s.height }
                else thumb)
      ∧ (_back_draw_callback env ans (some thumb)).2
          = (if thumb.img_surf = none then
              [Effect.image_get_surface thumb.imgid (c_int ((thumb.width : ℚ) * 0.91))
                (c_int ((thumb.height : ℚ) * 0.91))]
            else [])
            ++ _draw_background env after
            ++ [Effect.set_source_surface s (Int.tdiv (after.width - after.img_width) 2)
                  (Int.tdiv (after.height - after.img_height) 2),
                Effect.paint]
      ∧ ((_back_draw_callback env ans (some thumb)).2.filter
            Effect.is_set_source_surface).length = 1
      ∧ timeouts_added (_back_draw_callback env ans (some thumb)).2 = 0
      ∧ (thumb.img_surf = some s →
          (_back_draw_callback env ans (some thumb)).2.filter Effect.is_image_get_surface = []) := by
  have hid2 : ¬ thumb.imgid ≤ 0 := not_le.mpr hid
  have hbg1 := draw_background_no_surface env
  have hbg2 := draw_background_no_adapter env
  have hbg3 := draw_background_no_timeout env
  rcases hs with hs | ⟨hs, rfl⟩
  · refine ⟨thumb, ?_⟩
    have h : _back_draw_callback env ans (some thumb)
        = (some thumb, _draw_background env thumb ++
            [Effect.set_source_surface s (Int.tdiv (thumb.width - thumb.img_width) 2)
                  (Int.tdiv (thumb.height - thumb.img_height) 2),
                Effect.paint]) := by
      simp [_back_draw_callback, hid2, hs, _draw_image, _draw_image_border]
    rw [h]
    refine ⟨rfl, by simp [hs], by simp [hs], ?_, ?_, ?_⟩
    · simp [List.filter_append, hbg1, Effect.is_set_source_surface]
    · simp [timeouts_added, List.filter_append] 
      have := hbg3 thumb
      simpa [timeouts_added] using this
    · intro _
      simp [List.filter_append, hbg2, Effect.is_image_get_surface]
  · refine ⟨{ thumb with img_surf := some s, img_width := s.width, img_height := s.height }, ?_⟩
    have h : _back_draw_callback env (SurfaceAnswer.Bitmap s) (some thumb)
        = (some { thumb with img_surf := some s, img_width := s.width, img_height := s.height },
            [Effect.image_get_surface thumb.imgid (c_int ((thumb.width : ℚ) * 0.91))
                (c_int ((thumb.height : ℚ) * 0.91))] ++
            _draw_background env
              { thumb with img_surf := some s, img_width := s.width, img_height := s.height } ++
            [Effect.set_source_surface s (Int.tdiv (thumb.width - s.width) 2)
                  (Int.tdiv (thumb.height - s.height) 2),
                Effect.paint]) := by
      simp [_back_draw_callback, hid2, hs, _draw_image, _draw_image_border]
    rw [h]
    refine ⟨rfl, by simp [hs], by simp [hs], ?_, ?_, ?_⟩
    · simp [List.filter_append, hbg1, Effect.is_set_source_surface]
    · have := hbg3 { thumb with img_surf := some s, img_width := s.width, img_height := s.height }
      simp [timeouts_added, List.filter_append] at this ⊢
      exact this
    · intro h2
      rw [hs] at h2
      cases h2

/-- Witness of C4: the sample tile fetches the sample bitmap. -/
theorem back_draw_paints_bitmap_witness :
    0 < sample_tile.imgid
    ∧ (sample_tile.img_surf = some sample_surface
        ∨ (sample_tile.img_surf = none
            ∧ SurfaceAnswer.Bitmap sample_surface = SurfaceAnswer.Bitmap sample_surface))
    ∧ ((_back_draw_callback sample_env (SurfaceAnswer.Bitmap sample_surface)
          (some sample_tile)).2.filter Effect.is_set_source_surface).length = 1 :=
  ⟨by decide, Or.inr ⟨rfl, rfl⟩,
   by
    obtain ⟨_, _, _, _, h, _⟩ :=
      back_draw_paints_bitmap sample_env (SurfaceAnswer.Bitmap sample_surface) sample_tile
        sample_surface (by decide) (Or.inr ⟨rfl, rfl⟩)
    exact h⟩

/-- A mask below eight only sees the three low bits of a state. -/
theorem and_mask_low_bits (x m : Nat) (hm : m < 8) : x &&& m = (x % 8) &&& m := by
  apply Nat.eq_of_testBit_eq
  intro i
  have h8 : (8 : Nat) = 2 ^ 3 := by norm_num
  rw [Nat.testBit_and, Nat.testBit_and, h8, Nat.testBit_mod_two_pow]
  by_cases hi : i < 3
  · simp [hi]
  · have hmi : m.testBit i = false := by
      apply Nat.testBit_lt_two_pow
      have : 2 ^ 3 ≤ 2 ^ i := Nat.pow_le_pow_right (by norm_num) (by omega)
      omega
    simp [hmi]

/-- The shift and control bits of a modifier state decide its masks. -/
theorem modifier_masks (state : Nat) :
    (state &&& (GDK_SHIFT_MASK ||| GDK_CONTROL_MASK) = 0
        ↔ state.testBit 0 = false ∧ state.testBit 2 = false)
    ∧ (state &&& GDK_CONTROL_MASK = GDK_CONTROL_MASK ↔ state.testBit 2 = true)
    ∧ (state &&& GDK_SHIFT_MASK = GDK_SHIFT_MASK ↔ state.testBit 0 = true) := by
  have e5 : GDK_SHIFT_MASK ||| GDK_CONTROL_MASK = 5 := by decide
  have e4 : GDK_CONTROL_MASK = 4 := by decide
  have e1 : GDK_SHIFT_MASK = 1 := by decide
  rw [e5, e4, e1, and_mask_low_bits state 5 (by norm_num),
    and_mask_low_bits state 4 (by norm_num), and_mask_low_bits state 1 (by norm_num),
    Nat.testBit_zero, Nat.testBit_to_div_mod]
  have h0 : state % 2 = (state % 8) % 2 := by omega
  have h2 : state / 2 ^ 2 % 2 = (state % 8) / 4 % 2 := by omega
  rw [h0, h2]
  have hr : state % 8 < 8 := Nat.mod_lt _ (by norm_num)
  generalize state % 8 = r at hr
  interval_cases r <;> decide

/-- C5: on a release of button 1 the release handler makes exactly one call
on the selection store, for the image id of the tile and chosen by the
modifier bits of the event: `select_single` when neither shift nor control
is set, `toggle` when control is set, `select_range` when shift is set and
control is not; on a release of any other button it makes no call at all.
On the store as a finite set, the unmodified release turns every selection
into the singleton of the tile, and a control release on image 7 turns
`{7}` into the empty selection and `{3}` into `{3, 7}`. -/
theorem back_release_selection (range : Finset Int → Int → Finset Int) :
    (∀ (event : GdkEventButton) (thumb : dt_thumbnail),
      store_ops (_back_release_callback event thumb) =
        if event.button = 1 then
          if event.state.testBit 0 = false ∧ event.state.testBit 2 = false then
            [SelectionOp.select_single thumb.imgid]
          else if event.state.testBit 2 = true then [SelectionOp.toggle thumb.imgid]
          else [SelectionOp.select_range thumb.imgid]
        else [])
    ∧ (∀ (event : GdkEventButton) (thumb : dt_thumbnail), event.button ≠ 1 →
        _back_release_callback event thumb = [])
    ∧ (∀ (event : GdkEventButton) (thumb : dt_thumbnail) (sel : Finset Int),
        event.button = 1 → event.state.testBit 0 = false → event.state.testBit 2 = false →
        run_store range (store_ops (_back_release_callback event thumb)) sel = {thumb.imgid})
    ∧ (∀ (event : GdkEventButton) (thumb : dt_thumbnail) (sel : Finset Int),
        event.button = 1 → event.state.testBit 2 = true →
        run_store range (store_ops (_back_release_callback event thumb)) sel
          = if thumb.imgid ∈ sel then sel.erase thumb.imgid else insert thumb.imgid sel)
    ∧ (∀ (event : GdkEventButton) (thumb : dt_thumbnail) (sel : Finset Int),
        event.button = 1 → event.state.testBit 0 = true → event.state.testBit 2 = false →
        run_store range (store_ops (_back_release_callback event thumb)) sel
          = range sel thumb.imgid)
    ∧ (∀ (event : GdkEventButton) (thumb : dt_thumbnail),
        event.button = 1 → event.state.testBit 2 = true → thumb.imgid = 7 →
        run_store range (store_ops (_back_release_callback event thumb)) {7} = ∅
        ∧ run_store range (store_ops (_back_release_callback event thumb)) {3} = {3, 7}) := by
  have main : ∀ (event : GdkEventButton) (thumb : dt_thumbnail),
      store_ops (_back_release_callback event thumb) =
        if event.button = 1 then
          if event.state.testBit 0 = false ∧ event.state.testBit 2 = false then
            [SelectionOp.select_single thumb.imgid]
          else if event.state.testBit 2 = true then [SelectionOp.toggle thumb.imgid]
          else [SelectionOp.select_range thumb.imgid]
        else [] := by
    intro event thumb
    obtain ⟨m5, m4, m1⟩ := modifier_masks event.state
    unfold _back_release_callback
    by_cases hb : event.button = 1
    · simp only [hb, if_true]
      by_cases h02 : event.state.testBit 0 = false ∧ event.state.testBit 2 = false
      · rw [if_pos (m5.mpr h02), if_pos h02]; rfl
      · rw [if_neg (fun h => h02 (m5.mp h)), if_neg h02]
        by_cases h2 : event.state.testBit 2 = true
        · rw [if_pos (m4.mpr h2), if_pos h2]; rfl
        · rw [if_neg (fun h => h2 (m4.mp h)), if_neg h2]
          have h0 : event.state.testBit 0 = true := by
            by_contra h0
            exact h02 ⟨by simpa using h0, by simpa using h2⟩
          rw [if_pos (m1.mpr h0)]; rfl
    · simp [hb, store_ops]
  refine ⟨main, ?_, ?_, ?_, ?_, ?_⟩
  · intro event thumb hb
    simp [_back_release_callback, hb]
  · intro event thumb sel hb h0 h2
    rw [main, if_pos hb, if_pos ⟨h0, h2⟩]
    rfl
  · intro event thumb sel hb h2
    rw [main, if_pos hb, if_neg (by simp [h2]), if_pos h2]
    rfl
  · intro event thumb sel hb h0 h2
    rw [main, if_pos hb, if_neg (by simp [h0]), if_neg (by simp [h2])]
    rfl
  · intro event thumb hb h2 h7
    rw [main, if_pos hb, if_neg (by simp [h2]), if_pos h2, h7]
    constructor
    · simp [run_store, SelectionOp.apply]
    · simp [run_store, SelectionOp.apply]
      decide

/-- Witness of C5: a control release of button 1 on a tile of image 7. -/
theorem back_release_selection_witness :
    store_ops (_back_release_callback { button := 1, state := 4 } sample_tile)
        = [SelectionOp.toggle 7]
    ∧ run_store (fun sel _ => sel)
        (store_ops (_back_release_callback { button := 1, state := 4 } sample_tile)) {3}
        = {3, 7} :=
  ⟨by decide,
   ((back_release_selection (fun sel _ => sel)).2.2.2.2.2
      { button := 1, state := 4 } sample_tile rfl (by decide) rfl).2⟩

/-- The mouse-over handler on a tile whose drawing area exists. -/
theorem mouse_over_callback_built (over_id : Int) (thumb : dt_thumbnail)
    (hb : thumb.w_back = true) :
    _dt_mouse_over_image_callback over_id (some thumb) =
      if thumb.mouse_over = true ∨ over_id = thumb.imgid then
        (some { thumb with
            mouse_over := decide (over_id = thumb.imgid),
            w_info_back_eb :=
              { visible := decide (over_id = thumb.imgid),
                prelight := decide (over_id = thumb.imgid) && thumb.w_info_back_eb.prelight },
            w_btn_reject := { thumb.w_btn_reject with visible := decide (over_id = thumb.imgid) },
            w_stars_box := { thumb.w_stars_box with visible := decide (over_id = thumb.imgid) } },
          [Effect.queue_draw])
      else (some thumb, []) := by
  unfold _dt_mouse_over_image_callback
  by_cases hid : over_id = thumb.imgid
  · simp [hb, hid, gtk_widget_set_visible, _set_over_flag]
  · by_cases hm : thumb.mouse_over = true
    · simp [hb, hid, hm, gtk_widget_set_visible, _set_over_flag]
    · simp [hb, hid, hm, gtk_widget_set_visible, _set_over_flag]

/-- After the mouse-over handler a tile whose drawing area exists is marked
as hovered exactly when it is the target. -/
theorem mouse_over_callback_flag (over_id : Int) (thumb : dt_thumbnail)
    (hb : thumb.w_back = true) :
    ∃ after : dt_thumbnail,
      (_dt_mouse_over_image_callback over_id (some thumb)).1 = some after
      ∧ after.mouse_over = decide (over_id = thumb.imgid) := by
  rw [mouse_over_callback_built over_id thumb hb]
  by_cases hid : over_id = thumb.imgid
  · exact ⟨_, by rw [if_pos (Or.inr hid)], by simp [hid]⟩
  · by_cases hm : thumb.mouse_over = true
    · exact ⟨_, by rw [if_pos (Or.inl hm)], by simp [hid]⟩
    · refine ⟨thumb, by rw [if_neg (by simp [hid, hm])], ?_⟩
      simp only [Bool.not_eq_true] at hm
      simp [hid, hm]

/-- After a broadcast that names none of the tiles, no tile is hovered. -/
theorem broadcast_hovered_nil (over_id : Int) (tiles : List dt_thumbnail)
    (hb : ∀ t ∈ tiles, t.w_back = true) (hn : over_id ∉ tiles.map (fun t => t.imgid)) :
    hovered (mouse_over_broadcast over_id tiles) = [] := by
  induction tiles with
  | nil => rfl
  | cons t ts ih =>
    have hbt := hb t (List.mem_cons_self _ _)
    have hne : over_id ≠ t.imgid := by
      intro h; apply hn; simp [h]
    obtain ⟨after, h1, h2⟩ := mouse_over_callback_flag over_id t hbt
    have ih2 := ih (fun x hx => hb x (List.mem_cons_of_mem _ hx))
      (by intro h; apply hn; simp only [List.map_cons, List.mem_cons]; exact Or.inr h)
    simp only [hovered, mouse_over_broadcast, List.map_cons, List.filter_cons] at ih2 ⊢
    rw [h1]
    simp only [h2, hne, decide_False]
    exact ih2

/-- After a broadcast at most one of the tiles is hovered. -/
theorem broadcast_hovered_le_one (over_id : Int) (tiles : List dt_thumbnail)
    (hb : ∀ t ∈ tiles, t.w_back = true) (hd : (tiles.map (fun t => t.imgid)).Nodup) :
    (hovered (mouse_over_broadcast over_id tiles)).length ≤ 1 := by
  induction tiles with
  | nil => simp [hovered, mouse_over_broadcast]
  | cons t ts ih =>
    have hbt := hb t (List.mem_cons_self _ _)
    have hbs : ∀ x ∈ ts, x.w_back = true := fun x hx => hb x (List.mem_cons_of_mem _ hx)
    rw [List.map_cons, List.nodup_cons] at hd
    obtain ⟨after, h1, h2⟩ := mouse_over_callback_flag over_id t hbt
    have hcons : hovered (mouse_over_broadcast over_id (t :: ts))
        = (if after.mouse_over = true then [some after] else [])
          ++ hovered (mouse_over_broadcast over_id ts) := by
      simp only [hovered, mouse_over_broadcast, List.map_cons, List.filter_cons, h1]
      split_ifs <;> rfl
    rw [hcons]
    by_cases hid : over_id = t.imgid
    · have hnil := broadcast_hovered_nil over_id ts hbs (by rw [hid]; exact hd.1)
      rw [hnil]
      split_ifs <;> simp
    · have hf : after.mouse_over = false := by rw [h2]; simp [hid]
      simp only [hf, Bool.false_eq_true, if_false, List.nil_append]
      exact ih hbs hd.2

/-- C6: on a tile whose drawing area exists, after the mouse-over handler
`mouse_over` equals `over_id == imgid`.  If the tile was hovered or is the
target, the info overlay, the reject control and the rating box are made
visible exactly when the tile is the target (the info overlay loses its
prelight flag when the tile is not) and one redraw is queued; otherwise the
tile is unchanged and nothing is queued.  So a broadcast that names the
image of tile A, while tile B with another image was hovered, leaves A
hovered and B not, and after a broadcast over tiles with pairwise distinct
images at most one tile is hovered. -/
theorem mouse_over_broadcast_correct :
    (∀ (over_id : Int) (thumb : dt_thumbnail), thumb.w_back = true →
      (∃ after : dt_thumbnail,
        (_dt_mouse_over_image_callback over_id (some thumb)).1 = some after
        ∧ after.mouse_over = decide (over_id = thumb.imgid))
      ∧ _dt_mouse_over_image_callback over_id (some thumb) =
          if thumb.mouse_over = true ∨ over_id = thumb.imgid then
            (some { thumb with
                mouse_over := decide (over_id = thumb.imgid),
                w_info_back_eb :=
                  { visible := decide (over_id = thumb.imgid),
                    prelight :=
                      decide (over_id = thumb.imgid) && thumb.w_info_back_eb.prelight },
                w_btn_reject :=
                  { thumb.w_btn_reject with visible := decide (over_id = thumb.imgid) },
                w_stars_box :=
                  { thumb.w_stars_box with visible := decide (over_id = thumb.imgid) } },
              [Effect.queue_draw])
          else (some thumb, []))
    ∧ (∀ (a b : dt_thumbnail), a.w_back = true → b.w_back = true → a.imgid ≠ b.imgid →
        b.mouse_over = true →
        ∃ a2 b2 : dt_thumbnail,
          mouse_over_broadcast a.imgid [a, b] = [some a2, some b2]
          ∧ a2.mouse_over = true ∧ b2.mouse_over = false)
    ∧ (∀ (over_id : Int) (tiles : List dt_thumbnail), (∀ t ∈ tiles, t.w_back = true) →
        (tiles.map (fun t => t.imgid)).Nodup →
        (hovered (mouse_over_broadcast over_id tiles)).length ≤ 1) := by
  refine ⟨?_, ?_, ?_⟩
  · intro over_id thumb hb
    exact ⟨mouse_over_callback_flag over_id thumb hb, mouse_over_callback_built over_id thumb hb⟩
  · intro a b ha hb hne _
    obtain ⟨a2, ha1, ha2⟩ := mouse_over_callback_flag a.imgid a ha
    obtain ⟨b2, hb1, hb2⟩ := mouse_over_callback_flag a.imgid b hb
    refine ⟨a2, b2, ?_, ?_, ?_⟩
    · simp [mouse_over_broadcast, ha1, hb1]
    · simp [ha2]
    · simp [hb2, hne]
  · intro over_id tiles hb hd
    exact broadcast_hovered_le_one over_id tiles hb hd

/-- Witness of C6: a broadcast that names the sample tile while the tile of
image 3 is hovered. -/
theorem mouse_over_broadcast_witness :
    sample_tile.w_back = true ∧ hovered_tile.w_back = true
    ∧ sample_tile.imgid ≠ hovered_tile.imgid ∧ hovered_tile.mouse_over = true
    ∧ ∃ a2 b2 : dt_thumbnail,
        mouse_over_broadcast sample_tile.imgid [sample_tile, hovered_tile] = [some a2, some b2]
        ∧ a2.mouse_over = true ∧ b2.mouse_over = false :=
  ⟨rfl, rfl, by decide, rfl,
   mouse_over_broadcast_correct.2.1 sample_tile hovered_tile rfl rfl (by decide) rfl⟩

/-- C7: after the selection-changed handler the `selected` field of the
tile is the answer `q` of the membership query and no other field has
changed; one redraw is queued when `q` differs from the previous value of
`selected` and none otherwise; handling the notification again with the
same answer changes nothing and queues nothing. -/
theorem selection_changed_callback_correct (q : Bool) (thumb : dt_thumbnail) :
    (_dt_selection_changed_callback q (some thumb)).1 = some { thumb with selected := q }
    ∧ (_dt_selection_changed_callback q (some thumb)).2
        = (if q = thumb.selected then [] else [Effect.queue_draw])
    ∧ _dt_selection_changed_callback q (_dt_selection_changed_callback q (some thumb)).1
        = (some { thumb with selected := q }, []) := by
  cases q <;> cases hs : thumb.selected <;>
    simp [_dt_selection_changed_callback, hs] <;>
    (cases thumb; simp_all)

/-- The length of a string that sits at the start of a `char` array. -/
theorem strlen_append (s rest : List Nat) (h0 : ∀ c ∈ s, c ≠ 0) :
    strlen (s ++ 0 :: rest) = s.length := by
  induction s with
  | nil => simp [strlen]
  | cons c cs ih =>
    have hc : c ≠ 0 := h0 c (List.mem_cons_self _ _)
    have ih2 := ih (fun x hx => h0 x (List.mem_cons_of_mem _ hx))
    simp only [strlen] at ih2 ⊢
    simp [List.takeWhile_cons, hc, ih2]

/-- The string that starts right after a prefix of a `char` array. -/
theorem cstr_at_append (a b rest : List Nat) (h0 : ∀ c ∈ b, c ≠ 0) :
    cstr_at (a ++ (b ++ 0 :: rest)) a.length = b := by
  unfold cstr_at
  rw [List.drop_left]
  induction b with
  | nil => simp
  | cons c cs ih =>
    have hc : c ≠ 0 := h0 c (List.mem_cons_self _ _)
    have ih2 := ih (fun x hx => h0 x (List.mem_cons_of_mem _ hx))
    simp [List.takeWhile_cons, hc, ih2]

/-- The backward scan passes over cells that hold no dot. -/
theorem ext_scan_skip (buf : List Nat) (m k : Nat)
    (h : ∀ i : Nat, m < i → i ≤ m + k → buf.getD i 0 ≠ 46) :
    ext_scan buf (m + k) = ext_scan buf m := by
  induction k with
  | zero => rfl
  | succ j ih =>
    have hj : buf.getD (m + j + 1) 0 ≠ 46 := h (m + j + 1) (by omega) (by omega)
    have : ext_scan buf (m + (j + 1)) = ext_scan buf (m + j) := by
      show ext_scan buf (m + j + 1) = _
      rw [ext_scan, if_pos hj]
    rw [this]
    exact ih (fun i h1 h2 => h i h1 (by omega))

/-- The backward scan reads offsets between 1 and its entry offset only. -/
theorem ext_scan_reads_bounded (buf : List Nat) (n : Nat) :
    ∀ i ∈ ext_scan_reads buf n, 1 ≤ i ∧ i ≤ n := by
  induction n with
  | zero => simp [ext_scan_reads]
  | succ k ih =>
    intro i hi
    simp only [ext_scan_reads, List.mem_cons] at hi
    rcases hi with rfl | hi
    · omega
    · split_ifs at hi
      · have := ih i hi
        omega
      · simp at hi

/-- A cell of the part of a `char` array that follows the last dot of the
name, terminator included, holds no dot. -/
theorem getD_after_prefix (a b rest : List Nat) (hb : ∀ c ∈ b, c ≠ 46) (i : Nat)
    (h1 : a.length ≤ i) (h2 : i ≤ a.length + b.length) :
    (a ++ (b ++ 0 :: rest)).getD i 0 ≠ 46 := by
  rw [List.getD_eq_getElem?_getD, List.getElem?_append_right h1]
  by_cases hi : i - a.length < b.length
  · rw [List.getElem?_append_left hi, List.getElem?_eq_getElem hi]
    exact hb _ (List.getElem_mem _)
  · have : i - a.length = b.length := by omega
    rw [List.getElem?_append_right (by omega), this]
    simp

/-- On a file name with a dot the badge is the uppercased text that follows
the last dot. -/
theorem upcase_ext_with_dot (a b rest : List Nat) (ha : ∀ c ∈ a, c ≠ 0)
    (hb0 : ∀ c ∈ b, c ≠ 0) (hb : ∀ c ∈ b, c ≠ 46) :
    upcase_ext { filename := a ++ 46 :: b ++ 0 :: rest } = g_ascii_strup b := by
  have hlen : strlen (a ++ 46 :: b ++ 0 :: rest) = a.length + (b.length + 1) := by
    have := strlen_append (a ++ 46 :: b) rest (by
      intro c hc
      simp only [List.mem_append, List.mem_cons] at hc
      rcases hc with hc | rfl | hc
      · exact ha c hc
      · norm_num
      · exact hb0 c hc)
    simp only [List.append_assoc, List.cons_append, List.length_append, List.length_cons] at this
    simpa using this
  have hskip : ext_scan (a ++ 46 :: b ++ 0 :: rest) (a.length + (b.length + 1))
      = ext_scan (a ++ 46 :: b ++ 0 :: rest) a.length := by
    apply ext_scan_skip
    intro i h1 h2
    have := getD_after_prefix (a ++ [46]) b rest hb i (by simp; omega) (by simp; omega)
    simpa using this
  have hoff : ext_offset { filename := a ++ 46 :: b ++ 0 :: rest } = a.length + 1 := by
    simp only [ext_offset, hlen, hskip]
    cases a with
    | nil => rfl
    | cons c cs =>
      have hd : ((c :: cs) ++ 46 :: b ++ 0 :: rest).getD (cs.length + 1) 0 = 46 := by
        rw [List.append_assoc, List.getD_eq_getElem?_getD,
          List.getElem?_append_right (by simp)]
        simp
      show ext_scan _ (cs.length + 1) + 1 = _
      rw [ext_scan, if_neg (not_not.mpr hd)]
      rfl
  unfold upcase_ext
  rw [hoff]
  have := cstr_at_append (a ++ [46]) b rest hb0
  simp only [List.length_append, List.length_singleton, List.append_assoc,
    List.singleton_append] at this
  simp only [List.append_assoc, List.cons_append]
  rw [this]

/-- On a file name without a dot the badge is the uppercased text that
starts at the second cell of the array. -/
theorem upcase_ext_without_dot (s rest : List Nat) (h0 : ∀ c ∈ s, c ≠ 0)
    (hd : ∀ c ∈ s, c ≠ 46) :
    upcase_ext { filename := s ++ 0 :: rest } = g_ascii_strup (cstr_at (s ++ 0 :: rest) 1) := by
  have hlen := strlen_append s rest h0
  have hskip : ext_scan (s ++ 0 :: rest) (0 + s.length) = ext_scan (s ++ 0 :: rest) 0 := by
    apply ext_scan_skip
    intro i h1 h2
    have := getD_after_prefix [] s rest hd i (by simp) (by simpa using h2)
    simpa using this
  have hoff : ext_offset { filename := s ++ 0 :: rest } = 1 := by
    simp only [ext_offset, hlen]
    rw [Nat.zero_add] at hskip
    rw [hskip]
    rfl
  unfold upcase_ext
  rw [hoff]

/-- C9, the code at the failing inputs: for the file name `abc`, which has no
dot, the badge is `BC` and not the empty text; for the empty file name the
offset of the extension is 1, past the terminator at offset 0, and the
badge is made of the array cells that follow the terminator. -/
theorem upcase_ext_dotless_filename :
    upcase_ext { filename := ascii "abc" ++ [0] } = ascii "BC"
    ∧ strlen [0, 120, 0] = 0
    ∧ ext_offset { filename := [0, 120, 0] } = 1
    ∧ upcase_ext { filename := [0, 120, 0] } = ascii "X" := by
  decide

/-- A draw pass schedules one timer when the tile is populated, holds no
bitmap and the adapter answers Pending, and none otherwise. -/
theorem back_draw_timeouts (env : Env) (ans : SurfaceAnswer) (thumb : dt_thumbnail) :
    timeouts_added (_back_draw_callback env ans (some thumb)).2 =
      if 0 < thumb.imgid ∧ thumb.img_surf = none ∧ ans = SurfaceAnswer.Pending then 1 else 0 := by
  have hbg := draw_background_no_timeout env
  have happ : ∀ a b : List Effect, timeouts_added (a ++ b) = timeouts_added a + timeouts_added b := by
    intro a b; simp [timeouts_added, List.filter_append]
  have himg : ∀ t : dt_thumbnail, timeouts_added (_draw_image t) = 0 := by
    intro t
    unfold _draw_image
    cases t.img_surf <;> rfl
  by_cases hid : thumb.imgid ≤ 0
  · rw [if_neg (by intro h2; exact absurd h2.1 (not_lt.mpr hid))]
    simp [_back_draw_callback, hid, timeouts_added]
  · have hpos : 0 < thumb.imgid := not_le.mp hid
    cases hs : thumb.img_surf with
    | none =>
      cases ans with
      | Pending =>
        rw [if_pos ⟨hpos, rfl, rfl⟩]
        simp [_back_draw_callback, hid, hs, timeouts_added]
      | Bitmap s =>
        rw [if_neg (by simp)]
        simp only [_back_draw_callback, hid, hs, if_false, happ, hbg, himg, _draw_image_border]
        rfl
    | some s =>
      rw [if_neg (by simp)]
      simp only [_back_draw_callback, hid, hs, if_false, happ, hbg, himg, _draw_image_border]
      rfl

/-- One step of the main loop: a draw pass adds at most one timer, a firing
adds none. -/
theorem step_timers (env : Env) (st : MainLoop) :
    (∀ ans : SurfaceAnswer,
      (st.step env (LoopEvent.draw ans)).timers =
        st.timers + (if 0 < st.thumb.imgid ∧ st.thumb.img_surf = none
                        ∧ ans = SurfaceAnswer.Pending then 1 else 0))
    ∧ (st.step env LoopEvent.timer_fires).timers = st.timers - 1 := by
  constructor
  · intro ans
    simp only [MainLoop.step, back_draw_timeouts]
  · simp only [MainLoop.step, _expose_again]
    by_cases h : st.timers = 0
    · simp [h]
    · simp [h]

/-- In a run whose draw passes all start with no timer scheduled, at most
one timer is scheduled at the end. -/
theorem run_idle_timers (env : Env) (evs : List LoopEvent) :
    ∀ st : MainLoop, MainLoop.draws_when_idle env st evs = true → st.timers ≤ 1 →
      (st.run env evs).timers ≤ 1 := by
  induction evs with
  | nil => intro st _ h; exact h
  | cons ev rest ih =>
    intro st hidle h
    cases ev with
    | draw ans =>
      simp only [MainLoop.draws_when_idle, Bool.and_eq_true, beq_iff_eq] at hidle
      have hs := (step_timers env st).1 ans
      have : (st.step env (LoopEvent.draw ans)).timers ≤ 1 := by
        rw [hs, hidle.1]
        split_ifs <;> simp
      exact ih _ hidle.2 this
    | timer_fires =>
      simp only [MainLoop.draws_when_idle] at hidle
      have hs := (step_timers env st).2
      exact ih _ hidle (by rw [hs]; omega)

/-- A run schedules at most one timer per draw pass. -/
theorem run_timers_le (env : Env) (evs : List LoopEvent) :
    ∀ st : MainLoop, (st.run env evs).timers ≤ st.timers + draw_passes evs := by
  induction evs with
  | nil => intro st; simp [MainLoop.run, draw_passes]
  | cons ev rest ih =>
    intro st
    have h := ih (st.step env ev)
    have hrun : st.run env (ev :: rest) = (st.step env ev).run env rest := rfl
    rw [hrun]
    cases ev with
    | draw ans =>
      have hs := (step_timers env st).1 ans
      have hd : draw_passes (LoopEvent.draw ans :: rest) = draw_passes rest + 1 := by
        simp [draw_passes]
      rw [hd]
      rw [hs] at h
      split_ifs at h <;> omega
    | timer_fires =>
      have hs := (step_timers env st).2
      have hd : draw_passes (LoopEvent.timer_fires :: rest) = draw_passes rest := by
        simp [draw_passes]
      rw [hd]
      rw [hs] at h
      omega

/-- C10, as amended: a draw pass schedules exactly one deferred redraw when
the tile is populated, holds no bitmap and the adapter answers Pending, and
none otherwise; the firing of a timer removes it and schedules none.  So
after any run the number of deferred redraws that are scheduled and not
fired is at most the number there was plus the number of draw passes, and
it is at most one after every run in which each draw pass starts with no
deferred redraw scheduled. -/
theorem deferred_redraws_bounded (env : Env) (st : MainLoop) (evs : List LoopEvent) :
    (∀ ans : SurfaceAnswer,
      (st.step env (LoopEvent.draw ans)).timers =
        st.timers + (if 0 < st.thumb.imgid ∧ st.thumb.img_surf = none
                        ∧ ans = SurfaceAnswer.Pending then 1 else 0))
    ∧ (st.step env LoopEvent.timer_fires).timers = st.timers - 1
    ∧ (st.run env evs).timers ≤ st.timers + draw_passes evs
    ∧ (MainLoop.draws_when_idle env st evs = true → st.timers ≤ 1 →
        (st.run env evs).timers ≤ 1) :=
  ⟨(step_timers env st).1, (step_timers env st).2, run_timers_le env evs st,
   run_idle_timers env evs st⟩

/-- Witness of C10: on the sample tile, two Pending draw passes, each
followed by the firing of its timer, and then a successful draw pass. -/
theorem deferred_redraws_bounded_witness :
    MainLoop.draws_when_idle sample_env { thumb := sample_tile, timers := 0 }
        [LoopEvent.draw SurfaceAnswer.Pending, LoopEvent.timer_fires,
         LoopEvent.draw SurfaceAnswer.Pending, LoopEvent.timer_fires,
         LoopEvent.draw (SurfaceAnswer.Bitmap sample_surface)] = true
    ∧ (MainLoop.run sample_env { thumb := sample_tile, timers := 0 }
        [LoopEvent.draw SurfaceAnswer.Pending, LoopEvent.timer_fires,
         LoopEvent.draw SurfaceAnswer.Pending, LoopEvent.timer_fires,
         LoopEvent.draw (SurfaceAnswer.Bitmap sample_surface)]).timers ≤ 1 :=
  ⟨by decide,
   (deferred_redraws_bounded sample_env { thumb := sample_tile, timers := 0 }
      [LoopEvent.draw SurfaceAnswer.Pending, LoopEvent.timer_fires,
       LoopEvent.draw SurfaceAnswer.Pending, LoopEvent.timer_fires,
       LoopEvent.draw (SurfaceAnswer.Bitmap sample_surface)]).2.2.2 (by decide) (by decide)⟩

/-- Counterexample to C10 as stated: two draw passes in a row that both meet
a Pending fetch leave two deferred redraws scheduled on the sample tile, so
not every reachable state has at most one. -/
theorem two_pending_draws_two_timers :
    (MainLoop.run sample_env { thumb := sample_tile, timers := 0 }
        [LoopEvent.draw SurfaceAnswer.Pending, LoopEvent.draw SurfaceAnswer.Pending]).timers = 2
    ∧ ¬ ∀ evs : List LoopEvent,
        (MainLoop.run sample_env { thumb := sample_tile, timers := 0 } evs).timers ≤ 1 := by
  have h : (MainLoop.run sample_env { thumb := sample_tile, timers := 0 }
        [LoopEvent.draw SurfaceAnswer.Pending, LoopEvent.draw SurfaceAnswer.Pending]).timers = 2 := by
    decide
  refine ⟨h, fun hall => ?_⟩
  have := hall [LoopEvent.draw SurfaceAnswer.Pending, LoopEvent.draw SurfaceAnswer.Pending]
  omega

/-- A rational within half a unit of an integer rounds to that integer. -/
theorem round_half_even_eq (x : ℚ) (m : Int) (h : |x - m| < 1 / 2) : round_half_even x = m := by
  rw [abs_lt] at h
  obtain ⟨h1, h2⟩ := h
  unfold round_half_even
  have hf1 : ((⌊x⌋ : Int) : ℚ) ≤ x := Int.floor_le x
  have hf2 : x < (⌊x⌋ : Int) + 1 := Int.lt_floor_add_one x
  have hcase : ⌊x⌋ = m ∨ ⌊x⌋ = m - 1 := by
    have a1 : ((⌊x⌋ : Int) : ℚ) < (m : ℚ) + 1 := by linarith
    have a2 : (m : ℚ) - 2 < ((⌊x⌋ : Int) : ℚ) := by linarith
    have a1i : ⌊x⌋ < m + 1 := by exact_mod_cast a1
    have a2i : m - 2 < ⌊x⌋ := by exact_mod_cast a2
    omega
  rcases hcase with hc | hc
  · simp only [hc]
    rw [if_pos (by linarith)]
  · simp only [hc]
    have : ¬ (x - ((m - 1 : Int) : ℚ) < 1 / 2) := by push_cast; linarith
    rw [if_neg this, if_pos (by push_cast; linarith)]
    ring

/-- Rounding to an integer moves a rational by at most half a unit. -/
theorem round_half_even_near (x : ℚ) : |(round_half_even x : ℚ) - x| ≤ 1 / 2 := by
  have hf1 : ((⌊x⌋ : Int) : ℚ) ≤ x := Int.floor_le x
  have hf2 : x < (⌊x⌋ : Int) + 1 := Int.lt_floor_add_one x
  unfold round_half_even
  rw [abs_le]
  simp only
  split_ifs with c1 c2 c3
  · constructor <;> linarith
  · push_cast; constructor <;> linarith
  · constructor <;> linarith
  · push_cast; constructor <;> linarith

/-- The value of `round_to` on a rational in the binade of exponent `e`
that sits, once scaled, within half a unit of the integer `m`. -/
theorem round_to_eq (p : Nat) (q : ℚ) (e m : Int) (h1 : (2 : ℚ) ^ e ≤ |q|)
    (h2 : |q| < (2 : ℚ) ^ (e + 1))
    (h3 : |q / (2 : ℚ) ^ (e - ((p : Int) - 1)) - m| < 1 / 2) :
    round_to p q = (m : ℚ) * (2 : ℚ) ^ (e - ((p : Int) - 1)) := by
  have hpos : 0 < |q| := lt_of_lt_of_le (by positivity) h1
  have hq : q ≠ 0 := abs_pos.mp hpos
  have hlog : Int.log 2 |q| = e := by
    have ha : e ≤ Int.log 2 |q| :=
      (Int.zpow_le_iff_le_log (by norm_num) hpos).mp (by exact_mod_cast h1)
    have hb : Int.log 2 |q| < e + 1 :=
      (Int.lt_zpow_iff_log_lt (by norm_num) hpos).mp (by exact_mod_cast h2)
    omega
  unfold round_to
  rw [if_neg hq]
  simp only [hlog]
  rw [round_half_even_eq _ m h3]

/-- Rounding to `p` bits has a relative error of at most `2^(-p)`. -/
theorem round_to_near (p : Nat) (q : ℚ) : |round_to p q - q| ≤ |q| / (2 : ℚ) ^ p := by
  unfold round_to
  by_cases hq : q = 0
  · simp [hq]
  · rw [if_neg hq]
    simp only
    have hpos : 0 < |q| := abs_pos.mpr hq
    have hlog : (2 : ℚ) ^ (Int.log 2 |q|) ≤ |q| := by
      have := Int.zpow_log_le_self (b := 2) (r := |q|) (by norm_num) hpos
      exact_mod_cast this
    generalize Int.log 2 |q| = l at hlog
    have hs : (0 : ℚ) < (2 : ℚ) ^ (l - ((p : Int) - 1)) := by positivity
    have hp : (0 : ℚ) < (2 : ℚ) ^ p := by positivity
    have hr := round_half_even_near (q / (2 : ℚ) ^ (l - ((p : Int) - 1)))
    have e1 : (round_half_even (q / (2 : ℚ) ^ (l - ((p : Int) - 1))) : ℚ)
          * (2 : ℚ) ^ (l - ((p : Int) - 1)) - q
        = ((round_half_even (q / (2 : ℚ) ^ (l - ((p : Int) - 1))) : ℚ)
            - q / (2 : ℚ) ^ (l - ((p : Int) - 1))) * (2 : ℚ) ^ (l - ((p : Int) - 1)) := by
      field_simp
    rw [e1, abs_mul, abs_of_pos hs]
    have e2 : (2 : ℚ) ^ (l - ((p : Int) - 1)) = 2 * ((2 : ℚ) ^ l / (2 : ℚ) ^ p) := by
      rw [zpow_sub₀ (by norm_num), zpow_sub₀ (by norm_num), zpow_natCast, zpow_one]
      field_simp
      ring
    calc |(round_half_even (q / (2 : ℚ) ^ (l - ((p : Int) - 1))) : ℚ)
            - q / (2 : ℚ) ^ (l - ((p : Int) - 1))| * (2 : ℚ) ^ (l - ((p : Int) - 1))
        ≤ 1 / 2 * (2 : ℚ) ^ (l - ((p : Int) - 1)) :=
          mul_le_mul_of_nonneg_right hr (le_of_lt hs)
      _ = (2 : ℚ) ^ l / (2 : ℚ) ^ p := by rw [e2]; ring
      _ ≤ |q| / (2 : ℚ) ^ p := div_le_div_of_nonneg_right hlog (le_of_lt hp)

/-- Rounding to `double` moves a value of magnitude at most `b` by at most
`b / 2^53`. -/
theorem double_round_near (x b : ℚ) (hb : |x| ≤ b) :
    |double_round x - x| ≤ b / 2 ^ 53 := by
  have h := round_to_near 53 x
  have : |x| / (2 : ℚ) ^ 53 ≤ b / 2 ^ 53 := div_le_div_of_nonneg_right hb (by positivity)
  exact le_trans h this

/-- The layouts that the vertical badge loop shows: one per character, the
character `i` places below the entry of the loop is shown where the loop
variable `yoffs` has gone down by `i` font sizes. -/
theorem vertical_loop_shown (env : Env) (thumb : dt_thumbnail) (fs mw : Int) (e : List Nat)
    (yoffs : Int) (t : List Nat) (p : ℚ × ℚ) (i : Nat) :
    (shown_layouts t p (vertical_loop env thumb fs mw e yoffs))[i]? =
      (e[i]?).map (fun c =>
        { text := [c],
          x := double_add
                (double_sub (double_mul (double_round 0.045) (thumb.width : ℚ))
                  ((env.ink fs [c]).x : ℚ))
                ((Int.tdiv (mw - (env.ink fs [c]).width) 2 : Int) : ℚ),
          y := double_add
                (double_sub (double_mul (double_round 0.045) (thumb.height : ℚ))
                  ((yoffs - (i : Int) * fs : Int) : ℚ))
                (fs : ℚ) }) := by
  induction e generalizing yoffs t p i with
  | nil => simp [vertical_loop, shown_layouts]
  | cons c rest ih =>
    have hcons : vertical_loop env thumb fs mw (c :: rest) yoffs =
        Effect.layout_set_text [c] ::
        Effect.move_to
          (double_add
            (double_sub (double_mul (double_round 0.045) (thumb.width : ℚ))
              ((env.ink fs [c]).x : ℚ))
            ((Int.tdiv (mw - (env.ink fs [c]).width) 2 : Int) : ℚ))
          (double_add
            (double_sub (double_mul (double_round 0.045) (thumb.height : ℚ)) (yoffs : ℚ))
            (fs : ℚ)) ::
        Effect.show_layout :: vertical_loop env thumb fs mw rest (yoffs - fs) := rfl
    rw [hcons]
    simp only [shown_layouts]
    cases i with
    | zero => simp
    | succ j =>
      simp only [List.getElem?_cons_succ]
      rw [ih]
      have hy : yoffs - fs - (j : Int) * fs = yoffs - ((j + 1 : Nat) : Int) * fs := by
        push_cast; ring
      rw [hy]

/-- The measuring loop shows nothing and leaves the current point alone. -/
theorem measure_loop_shown (env : Env) (fs : Int) (e : List Nat) (m : Int) (t : List Nat)
    (p : ℚ × ℚ) (rest : List Effect) :
    ∃ t2 : List Nat,
      shown_layouts t p ((measure_loop env fs e m).2 ++ rest) = shown_layouts t2 p rest := by
  induction e generalizing m t with
  | nil => exact ⟨t, by simp [measure_loop]⟩
  | cons c cs ih =>
    obtain ⟨t2, h⟩ := ih (max m (env.ink fs [c]).width) [c]
    exact ⟨t2, by simpa [measure_loop, shown_layouts] using h⟩

/-- The layouts that `_draw_background` shows are those of the badge. -/
theorem draw_background_shown (env : Env) (thumb : dt_thumbnail) (img : dt_image_t)
    (hc : env.image_cache thumb.imgid = some img) :
    shown_layouts [] (0, 0) (_draw_background env thumb) =
      shown_layouts [] (0, 0)
        (if thumb.img_height > thumb.img_width then
          (measure_loop env (fontsize env thumb) (upcase_ext img) 0).2 ++
            vertical_loop env thumb (fontsize env thumb)
              (measure_loop env (fontsize env thumb) (upcase_ext img) 0).1 (upcase_ext img)
              (fontsize env thumb)
        else
          [Effect.layout_set_text (upcase_ext img),
           Effect.move_to
             (double_sub (double_mul (double_round 0.045) (thumb.width : ℚ))
               ((env.ink (fontsize env thumb) (upcase_ext img)).x : ℚ))
             (double_mul (double_round 0.045) (thumb.height : ℚ)),
           Effect.show_layout]) := by
  unfold _draw_background
  rw [hc]
  cases thumb.thumb_border <;> simp [draw_badge, shown_layouts]

/-- In portrait orientation the layouts that `_draw_background` shows are
the characters of the badge; character `i` is shown at the `double` value
of `.045 * height - yoffs + fontsize` for `yoffs = fontsize - i * fontsize`. -/
theorem draw_background_shown_portrait (env : Env) (thumb : dt_thumbnail) (img : dt_image_t)
    (hc : env.image_cache thumb.imgid = some img) (hp : thumb.img_height > thumb.img_width)
    (i : Nat) :
    (shown_layouts [] (0, 0) (_draw_background env thumb))[i]? =
      ((upcase_ext img)[i]?).map (fun c =>
        { text := [c],
          x := double_add
                (double_sub (double_mul (double_round 0.045) (thumb.width : ℚ))
                  ((env.ink (fontsize env thumb) [c]).x : ℚ))
                ((Int.tdiv ((measure_loop env (fontsize env thumb) (upcase_ext img) 0).1
                      - (env.ink (fontsize env thumb) [c]).width) 2 : Int) : ℚ),
          y := double_add
                (double_sub (double_mul (double_round 0.045) (thumb.height : ℚ))
                  ((fontsize env thumb - (i : Int) * fontsize env thumb : Int) : ℚ))
                (fontsize env thumb : ℚ) }) := by
  rw [draw_background_shown env thumb img hc, if_pos hp]
  obtain ⟨t2, h⟩ := measure_loop_shown env (fontsize env thumb) (upcase_ext img) 0 [] (0, 0)
    (vertical_loop env thumb (fontsize env thumb)
      (measure_loop env (fontsize env thumb) (upcase_ext img) 0).1 (upcase_ext img)
      (fontsize env thumb))
  rw [h, vertical_loop_shown]

/-- The `double` value of `.045 * h - yoffs + fs` is within `2^(-17)` of the
exact value when `h`, `yoffs` and `fs` are of 32-bit size. -/
theorem badge_position_near (h yoffs fs : ℚ) (hh : |h| ≤ 2 ^ 31) (hy : |yoffs| ≤ 2 ^ 31)
    (hf : |fs| ≤ 2 ^ 31) :
    |double_add (double_sub (double_mul (double_round 0.045) h) yoffs) fs
        - (0.045 * h - yoffs + fs)| ≤ 1 / 2 ^ 17 := by
  unfold double_add double_sub double_mul
  have hc := double_round_near 0.045 1 (by norm_num [abs_le])
  have hcb : |double_round 0.045| ≤ 1 := by
    rw [abs_le] at hc ⊢
    obtain ⟨c1, c2⟩ := hc
    norm_num at c1 c2 ⊢
    constructor <;> linarith
  have hp1 : |double_round 0.045 * h| ≤ 2 ^ 31 := by
    rw [abs_mul]
    calc |double_round 0.045| * |h| ≤ 1 * 2 ^ 31 :=
          mul_le_mul hcb hh (abs_nonneg _) (by norm_num)
      _ = 2 ^ 31 := by ring
  have hp2 : |double_round 0.045 * h - 0.045 * h| ≤ 2 ^ 31 / 2 ^ 53 := by
    have : double_round 0.045 * h - 0.045 * h = (double_round 0.045 - 0.045) * h := by ring
    rw [this, abs_mul]
    calc |double_round 0.045 - 0.045| * |h| ≤ 1 / 2 ^ 53 * 2 ^ 31 :=
          mul_le_mul hc hh (abs_nonneg _) (by norm_num)
      _ = 2 ^ 31 / 2 ^ 53 := by ring
  have ha := double_round_near (double_round 0.045 * h) (2 ^ 31) hp1
  generalize double_round 0.045 * h = p1 at hp1 hp2 ha
  generalize double_round p1 = a at ha
  have hab : |a - yoffs| ≤ 2 ^ 33 := by
    rw [abs_le] at ha hp1 hy ⊢
    obtain ⟨a1, a2⟩ := ha
    obtain ⟨b1, b2⟩ := hp1
    obtain ⟨d1, d2⟩ := hy
    norm_num at a1 a2 b1 b2 d1 d2 ⊢
    constructor <;> linarith
  have ht := double_round_near (a - yoffs) (2 ^ 33) hab
  generalize double_round (a - yoffs) = t at ht
  have htb : |t + fs| ≤ 2 ^ 35 := by
    rw [abs_le] at ht hab hf ⊢
    obtain ⟨a1, a2⟩ := ht
    obtain ⟨b1, b2⟩ := hab
    obtain ⟨d1, d2⟩ := hf
    norm_num at a1 a2 b1 b2 d1 d2 ⊢
    constructor <;> linarith
  have hyv := double_round_near (t + fs) (2 ^ 35) htb
  generalize double_round (t + fs) = y at hyv
  rw [abs_le] at ha hp2 ht hyv ⊢
  obtain ⟨a1, a2⟩ := ha
  obtain ⟨b1, b2⟩ := hp2
  obtain ⟨d1, d2⟩ := ht
  obtain ⟨e1, e2⟩ := hyv
  norm_num at a1 a2 b1 b2 d1 d2 e1 e2 ⊢
  constructor <;> linarith
/-- A rational halfway between two integers rounds to the even one. -/
theorem round_half_even_tie (x : ℚ) (m : Int) (h : x = (m : ℚ) + 1 / 2) :
    round_half_even x = if m % 2 = 0 then m else m + 1 := by
  have hf : ⌊x⌋ = m := by
    rw [Int.floor_eq_iff, h]
    constructor <;> linarith
  unfold round_half_even
  simp only [hf]
  have e1 : x - (m : ℚ) = 1 / 2 := by rw [h]; ring
  rw [e1, if_neg (lt_irrefl _), if_neg (lt_irrefl _)]

/-- The value of `round_to` on a rational in the binade of exponent `e`. -/
theorem round_to_binade (p : Nat) (q : ℚ) (e : Int) (h1 : (2 : ℚ) ^ e ≤ |q|)
    (h2 : |q| < (2 : ℚ) ^ (e + 1)) :
    round_to p q =
      (round_half_even (q / (2 : ℚ) ^ (e - ((p : Int) - 1))) : ℚ)
        * (2 : ℚ) ^ (e - ((p : Int) - 1)) := by
  have hpos : 0 < |q| := lt_of_lt_of_le (by positivity) h1
  have hq : q ≠ 0 := abs_pos.mp hpos
  have hlog : Int.log 2 |q| = e := by
    have ha : e ≤ Int.log 2 |q| :=
      (Int.zpow_le_iff_le_log (by norm_num) hpos).mp (by exact_mod_cast h1)
    have hb : Int.log 2 |q| < e + 1 :=
      (Int.lt_zpow_iff_log_lt (by norm_num) hpos).mp (by exact_mod_cast h2)
    omega
  unfold round_to
  rw [if_neg hq]
  simp only [hlog]
/-- The `double` literal `.09`. -/
theorem double_round_009 :
    double_round (9 / 100)
      = (3242591731706757 / 36028797018963968) := by
  have h := round_to_eq 53 (9 / 100) (-4) 6485183463413514
    (by norm_num [le_abs]) (by norm_num [abs_lt]) (by norm_num [abs_lt])
  rw [double_round, h]
  norm_num

/-- The `double` literal `.045`. -/
theorem double_round_045 :
    double_round (9 / 200)
      = (3242591731706757 / 72057594037927936) := by
  have h := round_to_eq 53 (9 / 200) (-5) 6485183463413514
    (by norm_num [le_abs]) (by norm_num [abs_lt]) (by norm_num [abs_lt])
  rw [double_round, h]
  norm_num

/-- The `double` product `.09 * 8`. -/
theorem double_round_009_mul_8 :
    double_round (3242591731706757 / 4503599627370496)
      = (3242591731706757 / 4503599627370496) := by
  have h := round_to_eq 53 (3242591731706757 / 4503599627370496) (-1) 6485183463413514
    (by norm_num [le_abs]) (by norm_num [abs_lt]) (by norm_num [abs_lt])
  rw [double_round, h]
  norm_num

/-- The `float` nearest to the `double` product `.09 * 8`. -/
theorem float_round_009_mul_8 :
    float_round (3242591731706757 / 4503599627370496)
      = (3019899 / 4194304) := by
  have h := round_to_eq 24 (3242591731706757 / 4503599627370496) (-1) 12079596
    (by norm_num [le_abs]) (by norm_num [abs_lt]) (by norm_num [abs_lt])
  rw [float_round, h]
  norm_num

/-- The `float` nearest to `20.0`. -/
theorem float_round_20 :
    float_round 20
      = 20 := by
  have h := round_to_eq 24 20 (4) 10485760
    (by norm_num [le_abs]) (by norm_num [abs_lt]) (by norm_num [abs_lt])
  rw [float_round, h]
  norm_num

/-- The `double` product `.09 * 128`. -/
theorem double_round_009_mul_128 :
    double_round (3242591731706757 / 281474976710656)
      = (3242591731706757 / 281474976710656) := by
  have h := round_to_eq 53 (3242591731706757 / 281474976710656) (3) 6485183463413514
    (by norm_num [le_abs]) (by norm_num [abs_lt]) (by norm_num [abs_lt])
  rw [double_round, h]
  norm_num

/-- The `float` nearest to the `double` product `.09 * 128`. -/
theorem float_round_009_mul_128 :
    float_round (3242591731706757 / 281474976710656)
      = (3019899 / 262144) := by
  have h := round_to_eq 24 (3242591731706757 / 281474976710656) (3) 12079596
    (by norm_num [le_abs]) (by norm_num [abs_lt]) (by norm_num [abs_lt])
  rw [float_round, h]
  norm_num

/-- The `double` product `.045 * 128`. -/
theorem double_round_045_mul_128 :
    double_round (3242591731706757 / 562949953421312)
      = (3242591731706757 / 562949953421312) := by
  have h := round_to_eq 53 (3242591731706757 / 562949953421312) (2) 6485183463413514
    (by norm_num [le_abs]) (by norm_num [abs_lt]) (by norm_num [abs_lt])
  rw [double_round, h]
  norm_num

/-- The `double` difference `.045 * 128 - 11`. -/
theorem double_round_margin_sub_11 :
    double_round (-(2949857755927675 / 562949953421312))
      = (-(2949857755927675 / 562949953421312)) := by
  have h := round_to_eq 53 (-(2949857755927675 / 562949953421312)) (2) (-5899715511855350)
    (by norm_num [le_abs]) (by norm_num [abs_lt]) (by norm_num [abs_lt])
  rw [double_round, h]
  norm_num

/-- The `double` sum `(.045 * 128 - 11) + 11`. -/
theorem double_round_margin_sub_add_11 :
    double_round (3242591731706757 / 562949953421312)
      = (3242591731706757 / 562949953421312) := by
  have h := round_to_eq 53 (3242591731706757 / 562949953421312) (2) 6485183463413514
    (by norm_num [le_abs]) (by norm_num [abs_lt]) (by norm_num [abs_lt])
  rw [double_round, h]
  norm_num

/-- The `double` sum `.045 * 128 + 11`. -/
theorem double_round_margin_add_11 :
    double_round (9435041219341189 / 562949953421312)
      = (2358760304835297 / 140737488355328) := by
  have h := round_to_binade 53 (9435041219341189 / 562949953421312) (4)
    (by norm_num [le_abs]) (by norm_num [abs_lt])
  have ht := round_half_even_tie
    ((9435041219341189 / 562949953421312) / (2 : ℚ) ^ ((4 : Int) - (((53 : Nat) : Int) - 1)))
    4717520609670594 (by norm_num)
  rw [double_round, h, ht]
  norm_num

/-- The `double` product `.09 * 200`. -/
theorem double_round_009_mul_200 :
    double_round (81064793292668925 / 4503599627370496)
      = 18 := by
  have h := round_to_eq 53 (81064793292668925 / 4503599627370496) (4) 5066549580791808
    (by norm_num [le_abs]) (by norm_num [abs_lt]) (by norm_num [abs_lt])
  rw [double_round, h]
  norm_num

/-- The `float` nearest to `18.0`. -/
theorem float_round_18 :
    float_round 18
      = 18 := by
  have h := round_to_eq 24 18 (4) 9437184
    (by norm_num [le_abs]) (by norm_num [abs_lt]) (by norm_num [abs_lt])
  rw [float_round, h]
  norm_num
/-- The font size of the sample tile of 8 pixels is 0. -/
theorem fontsize_tiny_tile : fontsize sample_env tiny_tile = 0 := by
  have hw : ((tiny_tile.width : Int) : ℚ) = 8 := by norm_num [tiny_tile]
  unfold fontsize double_mul
  rw [hw]
  norm_num [sample_env, double_round_009, double_round_009_mul_8, float_round_009_mul_8,
    float_round_20, c_int]
  decide

/-- The font size of the sample tile of 128 pixels is 11. -/
theorem fontsize_square_tile : fontsize sample_env square_tile = 11 := by
  have hw : ((square_tile.width : Int) : ℚ) = 128 := by norm_num [square_tile]
  unfold fontsize double_mul
  rw [hw]
  norm_num [sample_env, double_round_009, double_round_009_mul_128, float_round_009_mul_128,
    float_round_20, c_int]
  decide

/-- The font size of the sample tile of 200 pixels is 18. -/
theorem fontsize_portrait_tile : fontsize sample_env portrait_tile = 18 := by
  have hw : ((portrait_tile.width : Int) : ℚ) = 200 := by norm_num [portrait_tile, sample_tile]
  unfold fontsize double_mul
  rw [hw]
  norm_num [sample_env, double_round_009, double_round_009_mul_200, float_round_18,
    float_round_20, c_int]
/-- In portrait orientation, with the height and the loop variable of
32-bit size, the layout `i` is shown within `2^(-17)` of the exact position
`0.045 * height + i * fontsize`. -/
theorem draw_background_shown_near (env : Env) (thumb : dt_thumbnail) (img : dt_image_t)
    (hc : env.image_cache thumb.imgid = some img) (hp : thumb.img_height > thumb.img_width)
    (hh : |thumb.height| ≤ 2 ^ 31)
    (hk : (((upcase_ext img).length : Int) + 1) * |fontsize env thumb| ≤ 2 ^ 31)
    (i : Nat) (a : Shown)
    (ha : (shown_layouts [] (0, 0) (_draw_background env thumb))[i]? = some a) :
    |a.y - (0.045 * (thumb.height : ℚ) + (i : ℚ) * (fontsize env thumb : ℚ))| ≤ 1 / 2 ^ 17 := by
  rw [draw_background_shown_portrait env thumb img hc hp i] at ha
  cases he : (upcase_ext img)[i]? with
  | none => rw [he] at ha; cases ha
  | some c =>
    rw [he] at ha
    simp only [Option.map_some', Option.some.injEq] at ha
    have hi : i < (upcase_ext img).length := by
      by_contra hcon
      rw [List.getElem?_eq_none_iff.mpr (not_lt.mp hcon)] at he
      cases he
    have hfs0 : 0 ≤ |fontsize env thumb| := abs_nonneg _
    have hfs : |fontsize env thumb| ≤ 2 ^ 31 := by nlinarith
    have hyo : |fontsize env thumb - (i : Int) * fontsize env thumb| ≤ 2 ^ 31 := by
      have h1 : |fontsize env thumb - (i : Int) * fontsize env thumb|
          ≤ |fontsize env thumb| + |(i : Int) * fontsize env thumb| := abs_sub _ _
      have h2 : |(i : Int) * fontsize env thumb| = (i : Int) * |fontsize env thumb| := by
        rw [abs_mul, abs_of_nonneg (Int.natCast_nonneg i)]
      have h3 : (i : Int) < ((upcase_ext img).length : Int) := by exact_mod_cast hi
      nlinarith
    have hhq : |(thumb.height : ℚ)| ≤ 2 ^ 31 := by exact_mod_cast hh
    have hfq : |(fontsize env thumb : ℚ)| ≤ 2 ^ 31 := by exact_mod_cast hfs
    have hyq : |((fontsize env thumb - (i : Int) * fontsize env thumb : Int) : ℚ)| ≤ 2 ^ 31 := by
      exact_mod_cast hyo
    have key := badge_position_near (thumb.height : ℚ)
      ((fontsize env thumb - (i : Int) * fontsize env thumb : Int) : ℚ)
      (fontsize env thumb : ℚ) hhq hyq hfq
    rw [← ha]
    simp only
    have e : 0.045 * (thumb.height : ℚ)
          - ((fontsize env thumb - (i : Int) * fontsize env thumb : Int) : ℚ)
          + (fontsize env thumb : ℚ)
        = 0.045 * (thumb.height : ℚ) + (i : ℚ) * (fontsize env thumb : ℚ) := by
      push_cast; ring
    rw [e] at key
    exact key

/-- C8, as amended: when the image record resolves and the bitmap is
portrait (`img_height > img_width`), `_draw_background` shows exactly as
many layouts as the uppercased extension has characters; the layout `i`
(from 0) is the single character `i` of the uppercased extension, shown at
the `double` value of `.045 * height - yoffs + fontsize` for the loop
variable `yoffs = fontsize - i * fontsize`, with `fontsize` the truncation
of `fminf(DT_PIXEL_APPLY_DPI(20), .09 * width)`.  When the height and the
loop variable are of 32-bit size, that position is within `2^(-17)` of
`0.045 * height + i * fontsize`, consecutive layouts are one `fontsize`
apart up to `2^(-16)`, and the positions increase strictly from top to
bottom provided `fontsize` is positive.  When the bitmap is not portrait
the whole uppercased extension is shown as one layout at the margin. -/
theorem vertical_badge_layout (env : Env) (thumb : dt_thumbnail) (img : dt_image_t)
    (hc : env.image_cache thumb.imgid = some img) :
    (thumb.img_height > thumb.img_width →
      (shown_layouts [] (0, 0) (_draw_background env thumb)).length = (upcase_ext img).length
      ∧ (∀ i : Nat,
          (shown_layouts [] (0, 0) (_draw_background env thumb))[i]? =
            ((upcase_ext img)[i]?).map (fun c =>
              { text := [c],
                x := double_add
                      (double_sub (double_mul (double_round 0.045) (thumb.width : ℚ))
                        ((env.ink (fontsize env thumb) [c]).x : ℚ))
                      ((Int.tdiv
                          ((measure_loop env (fontsize env thumb) (upcase_ext img) 0).1
                            - (env.ink (fontsize env thumb) [c]).width) 2 : Int) : ℚ),
                y := double_add
                      (double_sub (double_mul (double_round 0.045) (thumb.height : ℚ))
                        ((fontsize env thumb - (i : Int) * fontsize env thumb : Int) : ℚ))
                      (fontsize env thumb : ℚ) }))
      ∧ (|thumb.height| ≤ 2 ^ 31 →
          (((upcase_ext img).length : Int) + 1) * |fontsize env thumb| ≤ 2 ^ 31 →
          (∀ (i : Nat) (a : Shown),
            (shown_layouts [] (0, 0) (_draw_background env thumb))[i]? = some a →
            |a.y - (0.045 * (thumb.height : ℚ) + (i : ℚ) * (fontsize env thumb : ℚ))|
              ≤ 1 / 2 ^ 17)
          ∧ (∀ (i : Nat) (a b : Shown),
              (shown_layouts [] (0, 0) (_draw_background env thumb))[i]? = some a →
              (shown_layouts [] (0, 0) (_draw_background env thumb))[i + 1]? = some b →
              |b.y - a.y - (fontsize env thumb : ℚ)| ≤ 1 / 2 ^ 16)
          ∧ (0 < fontsize env thumb →
              ∀ (i j : Nat) (a b : Shown), i < j →
                (shown_layouts [] (0, 0) (_draw_background env thumb))[i]? = some a →
                (shown_layouts [] (0, 0) (_draw_background env thumb))[j]? = some b →
                a.y < b.y)))
    ∧ (¬ thumb.img_height > thumb.img_width →
        shown_layouts [] (0, 0) (_draw_background env thumb) =
          [{ text := upcase_ext img,
             x := double_sub (double_mul (double_round 0.045) (thumb.width : ℚ))
                    ((env.ink (fontsize env thumb) (upcase_ext img)).x : ℚ),
             y := double_mul (double_round 0.045) (thumb.height : ℚ) }]) := by
  constructor
  · intro hp
    have key := draw_background_shown_portrait env thumb img hc hp
    refine ⟨?_, key, ?_⟩
    · apply le_antisymm
      · rw [← List.getElem?_eq_none_iff, key]
        simp
      · have h := key (shown_layouts [] (0, 0) (_draw_background env thumb)).length
        rw [List.getElem?_eq_none_iff.mpr (le_refl _)] at h
        have h2 : (upcase_ext img)[(shown_layouts [] (0, 0)
            (_draw_background env thumb)).length]? = none := by
          cases he : (upcase_ext img)[(shown_layouts [] (0, 0)
              (_draw_background env thumb)).length]? with
          | none => rfl
          | some c => rw [he] at h; cases h
        exact List.getElem?_eq_none_iff.mp h2
    · intro hh hk
      have near := draw_background_shown_near env thumb img hc hp hh hk
      refine ⟨near, ?_, ?_⟩
      · intro i a b ha hb
        have h1 := near i a ha
        have h2 := near (i + 1) b hb
        rw [abs_le] at h1 h2 ⊢
        obtain ⟨a1, a2⟩ := h1
        obtain ⟨b1, b2⟩ := h2
        push_cast at b1 b2
        norm_num at a1 a2 b1 b2 ⊢
        constructor <;> linarith
      · intro hfs i j a b hij ha hb
        have h1 := near i a ha
        have h2 := near j b hb
        rw [abs_le] at h1 h2
        obtain ⟨a1, a2⟩ := h1
        obtain ⟨b1, b2⟩ := h2
        have hq1 : (i : ℚ) + 1 ≤ (j : ℚ) := by exact_mod_cast hij
        have hq2 : (1 : ℚ) ≤ (fontsize env thumb : ℚ) := by exact_mod_cast hfs
        have hq3 : (i : ℚ) * (fontsize env thumb : ℚ) + 1
            ≤ (j : ℚ) * (fontsize env thumb : ℚ) := by nlinarith
        norm_num at a1 a2 b1 b2
        linarith
  · intro hp
    rw [draw_background_shown env thumb img hc, if_neg hp]
    simp [shown_layouts]

/-- Witness of C8: the sample tile with its portrait bitmap, where the font
size is 18 and the three characters of the badge go strictly downwards. -/
theorem vertical_badge_layout_witness :
    sample_env.image_cache portrait_tile.imgid = some { filename := ascii "img_0001.jpg" ++ [0] }
    ∧ portrait_tile.img_height > portrait_tile.img_width
    ∧ |portrait_tile.height| ≤ 2 ^ 31
    ∧ (((upcase_ext { filename := ascii "img_0001.jpg" ++ [0] }).length : Int) + 1)
        * |fontsize sample_env portrait_tile| ≤ 2 ^ 31
    ∧ 0 < fontsize sample_env portrait_tile
    ∧ (shown_layouts [] (0, 0) (_draw_background sample_env portrait_tile)).length = 3
    ∧ ∀ (i j : Nat) (a b : Shown), i < j →
        (shown_layouts [] (0, 0) (_draw_background sample_env portrait_tile))[i]? = some a →
        (shown_layouts [] (0, 0) (_draw_background sample_env portrait_tile))[j]? = some b →
        a.y < b.y := by
  have hlen : (upcase_ext { filename := ascii "img_0001.jpg" ++ [0] }).length = 3 := by decide
  have hh : |portrait_tile.height| ≤ 2 ^ 31 := by decide
  have hk : (((upcase_ext { filename := ascii "img_0001.jpg" ++ [0] }).length : Int) + 1)
      * |fontsize sample_env portrait_tile| ≤ 2 ^ 31 := by
    rw [hlen, fontsize_portrait_tile]; decide
  have hpos : 0 < fontsize sample_env portrait_tile := by
    rw [fontsize_portrait_tile]; decide
  have hp : portrait_tile.img_height > portrait_tile.img_width := by decide
  have h := (vertical_badge_layout sample_env portrait_tile
    { filename := ascii "img_0001.jpg" ++ [0] } rfl).1 hp
  exact ⟨rfl, hp, hh, hk, hpos, by rw [h.1, hlen], (h.2.2 hh hk).2.2 hpos⟩

/-- Counterexample to C8 as stated.  On the sample tile 8 pixels wide the
font size is 0 and the first two characters of the vertical badge are
shown at the same vertical position, not at increasing ones.  On the sample
tile of 128 by 128 pixels the font size is 11, the first character is not
shown at `0.045 * 128` and the second is not shown 11 below the first. -/
theorem vertical_badge_not_as_stated :
    (tiny_tile.img_height > tiny_tile.img_width
      ∧ fontsize sample_env tiny_tile = 0
      ∧ ∃ a b : Shown,
          (shown_layouts [] (0, 0) (_draw_background sample_env tiny_tile))[0]? = some a
          ∧ (shown_layouts [] (0, 0) (_draw_background sample_env tiny_tile))[1]? = some b
          ∧ ¬ a.y < b.y)
    ∧ (square_tile.img_height > square_tile.img_width
      ∧ fontsize sample_env square_tile = 11
      ∧ ∃ a b : Shown,
          (shown_layouts [] (0, 0) (_draw_background sample_env square_tile))[0]? = some a
          ∧ (shown_layouts [] (0, 0) (_draw_background sample_env square_tile))[1]? = some b
          ∧ a.y ≠ 0.045 * 128 + 0 * 11
          ∧ b.y - a.y ≠ 11) := by
  have e0 : (upcase_ext { filename := ascii "img_0001.jpg" ++ [0] })[0]? = some 74 := by decide
  have e1 : (upcase_ext { filename := ascii "img_0001.jpg" ++ [0] })[1]? = some 80 := by decide
  constructor
  · have hp : tiny_tile.img_height > tiny_tile.img_width := by decide
    have hc : sample_env.image_cache tiny_tile.imgid
        = some { filename := ascii "img_0001.jpg" ++ [0] } := rfl
    have h0 := draw_background_shown_portrait sample_env tiny_tile _ hc hp 0
    have h1 := draw_background_shown_portrait sample_env tiny_tile _ hc hp 1
    rw [e0] at h0
    rw [e1] at h1
    refine ⟨hp, fontsize_tiny_tile, _, _, h0, h1, ?_⟩
    simp [fontsize_tiny_tile]
  · have hp : square_tile.img_height > square_tile.img_width := by decide
    have hc : sample_env.image_cache square_tile.imgid
        = some { filename := ascii "img_0001.jpg" ++ [0] } := rfl
    have h0 := draw_background_shown_portrait sample_env square_tile _ hc hp 0
    have h1 := draw_background_shown_portrait sample_env square_tile _ hc hp 1
    rw [e0] at h0
    rw [e1] at h1
    have hh : ((square_tile.height : Int) : ℚ) = 128 := by norm_num [square_tile]
    refine ⟨hp, fontsize_square_tile, _, _, h0, h1, ?_, ?_⟩
    · simp only [fontsize_square_tile, hh, double_add, double_sub, double_mul]
      norm_num [double_round_045, double_round_045_mul_128, double_round_margin_sub_11,
        double_round_margin_sub_add_11]
    · simp only [fontsize_square_tile, hh, double_add, double_sub, double_mul]
      norm_num [double_round_045, double_round_045_mul_128, double_round_margin_sub_11,
        double_round_margin_sub_add_11, double_round_margin_add_11]

end Thumbnail
